import Mathlib

/-!
Verification of the telemetry store and analytics engine of the
xsens-interface-avcc repository (src/sensors.py, src/xda_device.py).

The Python data model is shallowly embedded:
  * Python dicts (string keys, insertion-ordered) become association lists
    `List (String × β)`; mutating an existing key maps its value in place,
    which keeps key order and the key set, exactly as CPython does.
  * Python lists of floats become `List ℝ` (store, correlations, FFT) or
    `List ℚ` (the min/max scaling state, kept rational so that concrete
    traces evaluate by `decide`).
  * Methods that mutate `self` become functions returning the new state.
  * A Python `KeyError` / `IndexError` on the failure paths a claim talks
    about is modelled by `Option`/`none`.  Inner store updates on keys that
    are always present in every reachable state use a total
    modify-if-present update (`updateA`), which agrees with the source on
    those states.
-/

/-! ## Association lists: the embedding of Python dicts -/

/-- Lookup in an insertion-ordered association list (Python `d[k]` read). -/
def lookupA {β : Type _} : List (String × β) → String → Option β
  | [], _ => none
  | (k, v) :: t, key => if k = key then some v else lookupA t key

/-- Map the value stored under `key` in place (Python mutation of an existing
entry); keys, order and the key set are unchanged. -/
def updateA {β : Type _} (l : List (String × β)) (key : String) (f : β → β) :
    List (String × β) :=
  l.map (fun p => if p.1 = key then (p.1, f p.2) else p)

/-- Python dict assignment `d[k] = v`: replace in place when the key exists,
append a fresh entry otherwise. -/
def setA {β : Type _} (l : List (String × β)) (key : String) (v : β) :
    List (String × β) :=
  if (lookupA l key).isSome then updateA l key (fun _ => v) else l ++ [(key, v)]

/-- Keys of a dict in insertion order (Python `for k in d`). -/
def keysA {β : Type _} (l : List (String × β)) : List String := l.map Prod.fst

/-- Modify one position of a list in place (mutation of `xs[i]`); out-of-range
indices leave the list unchanged. -/
def modIdx {α : Type _} : List α → ℕ → (α → α) → List α
  | [], _, _ => []
  | a :: t, 0, f => f a :: t
  | a :: t, n + 1, f => a :: modIdx t n f

theorem updateA_cons {β : Type _} (a : String) (b : β) (t : List (String × β))
    (k : String) (f : β → β) :
    updateA ((a, b) :: t) k f =
      (if a = k then (a, f b) else (a, b)) :: updateA t k f := by
  by_cases h : a = k <;> simp [updateA, h]

theorem lookupA_updateA_self {β : Type _} (l : List (String × β)) (k : String)
    (f : β → β) : lookupA (updateA l k f) k = (lookupA l k).map f := by
  induction l with
  | nil => rfl
  | cons p t ih =>
    obtain ⟨a, b⟩ := p
    rw [updateA_cons]
    by_cases h : a = k
    · subst h
      rw [if_pos rfl]
      simp [lookupA]
    · rw [if_neg h]; simp [lookupA, h, ih]

theorem lookupA_updateA_ne {β : Type _} (l : List (String × β)) {k k' : String}
    (f : β → β) (h : k' ≠ k) : lookupA (updateA l k f) k' = lookupA l k' := by
  induction l with
  | nil => rfl
  | cons p t ih =>
    obtain ⟨a, b⟩ := p
    rw [updateA_cons]
    by_cases h0 : a = k
    · subst h0
      rw [if_pos rfl]
      simp [lookupA, Ne.symm h, ih]
    · rw [if_neg h0]
      by_cases h1 : a = k' <;> simp [lookupA, h1, ih]

theorem keysA_updateA {β : Type _} (l : List (String × β)) (k : String)
    (f : β → β) : keysA (updateA l k f) = keysA l := by
  induction l with
  | nil => rfl
  | cons p t ih =>
    obtain ⟨a, b⟩ := p
    rw [updateA_cons]
    by_cases h : a = k <;> simp [keysA, h] at ih ⊢ <;> exact ih

theorem get?_modIdx_self {α : Type _} (l : List α) (i : ℕ) (f : α → α) :
    (modIdx l i f)[i]? = (l[i]?).map f := by
  induction l generalizing i with
  | nil => cases i <;> rfl
  | cons a t ih => cases i with
    | zero => simp [modIdx]
    | succ n => simpa [modIdx] using ih n

theorem get?_modIdx_ne {α : Type _} (l : List α) {i j : ℕ} (f : α → α)
    (h : j ≠ i) : (modIdx l i f)[j]? = l[j]? := by
  induction l generalizing i j with
  | nil => cases i <;> rfl
  | cons a t ih =>
    cases i with
    | zero => cases j with
      | zero => exact absurd rfl h
      | succ m => simp [modIdx]
    | succ n => cases j with
      | zero => simp [modIdx]
      | succ m => simpa [modIdx] using ih (fun hmn => h (by simpa using hmn))

theorem length_modIdx {α : Type _} (l : List α) (i : ℕ) (f : α → α) :
    (modIdx l i f).length = l.length := by
  induction l generalizing i with
  | nil => rfl
  | cons a t ih => cases i <;> simp [modIdx, *]

/-! ## ScalingState: `Sensors.__init__` minmax entry and `Sensors.scale_data`

`Sensors.scale_data` (src/sensors.py:153-173) scales one data vector
componentwise.  For component `i` it first reads the stored bounds into the
locals `minimum`/`maximum`, then widens the stored bound that `val` escapes,
and finally computes `(val - minimum) / (maximum - minimum)` — with the
*local* (pre-update) values, not the freshly written ones.  States are the
per-sensor min/max dict (the `'id'` selection from `self.minmax` is resolved
by the caller and not part of the scaling state). -/

/-- Per-sensor min/max bounds dictionary, keys like `"rot_min"`/`"rot_max"`. -/
abbrev MinMax := List (String × List ℚ)

/-- Initial bounds of one entry of `Sensors.minmax` (src/sensors.py:118-127):
minima all `0`, maxima all `1`. -/
def initMinMax : MinMax :=
  [("acc_min", [0, 0, 0]), ("gyr_min", [0, 0, 0]), ("mag_min", [0, 0, 0]),
   ("ori_min", [0, 0, 0]), ("tot_a_min", [0]), ("rot_min", [0]),
   ("acc_max", [1, 1, 1]), ("gyr_max", [1, 1, 1]), ("mag_max", [1, 1, 1]),
   ("ori_max", [1, 1, 1]), ("tot_a_max", [1]), ("rot_max", [1])]

/-- Component `i` of the bounds list stored under `key`. -/
def boundAt (mm : MinMax) (key : String) (i : ℕ) : Option ℚ :=
  (lookupA mm key).bind (fun l => l[i]?)

/-- Write component `i` of a list (Python `l[i] = v`; out of range would raise
`IndexError`, never reached because the index was just read). -/
def setIdx (l : List ℚ) (i : ℕ) (v : ℚ) : List ℚ := modIdx l i (fun _ => v)

/-- One component of `scale_data`: read `minimum`/`maximum`, widen the stored
bound `val` escapes, and return the ratio computed from the values read
*before* the update (src/sensors.py:161-171).  `none` models the `KeyError` /
`IndexError` the source would raise when the key or index is missing. -/
def scaleComp (mm : MinMax) (t : String) (i : ℕ) (v : ℚ) :
    Option (ℚ × MinMax) := do
  let mins ← lookupA mm (t ++ "_min")
  let maxs ← lookupA mm (t ++ "_max")
  let m ← mins[i]?
  let M ← maxs[i]?
  let mm' :=
    if v < m then updateA mm (t ++ "_min") (fun l => setIdx l i v)
    else if v > M then updateA mm (t ++ "_max") (fun l => setIdx l i v)
    else mm
  some ((v - m) / (M - m), mm')

/-- The `for i, val in enumerate(value)` loop of `scale_data`, threading the
mutated bounds. -/
def scaleGo (t : String) : List (ℕ × ℚ) → MinMax → Option (List ℚ × MinMax)
  | [], mm => some ([], mm)
  | (i, v) :: rest, mm => do
    let (s, mm') ← scaleComp mm t i v
    let (ss, mm'') ← scaleGo t rest mm'
    pure (s :: ss, mm'')

/-- Model of `Sensors.scale_data` (src/sensors.py:153-173) on one sensor's
bounds dictionary: the scaled vector together with the updated bounds. -/
def scale_data (mm : MinMax) (t : String) (value : List ℚ) :
    Option (List ℚ × MinMax) :=
  scaleGo t value.enum mm

/-- Folding a whole sequence of `scale_data` calls, keeping only the bounds. -/
def scaleCalls (mm : MinMax) (calls : List (String × List ℚ)) : Option MinMax :=
  calls.foldlM (fun m c => (scale_data m c.1 c.2).map Prod.snd) mm

example : scale_data initMinMax "rot" [5] =
    some ([5], updateA initMinMax "rot_max" (fun l => setIdx l 0 5)) := by
  simp only [scale_data, scaleGo, scaleComp, List.enum, List.enumFrom]
  rw [show lookupA initMinMax ("rot" ++ "_min") = some [0] from rfl,
      show lookupA initMinMax ("rot" ++ "_max") = some [1] from rfl]
  norm_num
  rfl

/-- Keys that store minima: the dictionary key ends in `"_min"`. -/
abbrev isMinKey (k : String) : Prop := "_min".data <:+ k.data

/-- Keys that store maxima: the dictionary key ends in `"_max"`. -/
abbrev isMaxKey (k : String) : Prop := "_max".data <:+ k.data

theorem isMinKey_append (t : String) : isMinKey (t ++ "_min") := by
  show "_min".data <:+ (t ++ "_min").data
  rw [String.data_append]
  exact List.suffix_append _ _

theorem isMaxKey_append (t : String) : isMaxKey (t ++ "_max") := by
  show "_max".data <:+ (t ++ "_max").data
  rw [String.data_append]
  exact List.suffix_append _ _

theorem not_isMinKey_and_isMaxKey (k : String) (h1 : isMinKey k)
    (h2 : isMaxKey k) : False := by
  rcases List.suffix_or_suffix_of_suffix h1 h2 with h | h <;>
    have := h.eq_of_length (by decide) <;> simp at this

theorem append_min_ne_append_max (t t' : String) :
    t ++ "_min" ≠ t' ++ "_max" := by
  intro h
  exact not_isMinKey_and_isMaxKey (t' ++ "_max") (h ▸ isMinKey_append t)
    (isMaxKey_append t')

/-- The one-component step of `scale_data`, fully characterised: the bounds
that were read, the returned ratio (computed from the pre-update bounds), and
a pointwise description of every stored bound afterwards. -/
theorem scaleComp_spec (mm : MinMax) (t : String) (i : ℕ) (v s : ℚ)
    (mm' : MinMax) (h : scaleComp mm t i v = some (s, mm')) :
    ∃ m M, boundAt mm (t ++ "_min") i = some m ∧
      boundAt mm (t ++ "_max") i = some M ∧ s = (v - m) / (M - m) ∧
      ((v < m ∧ ∀ k j, boundAt mm' k j =
          if k = t ++ "_min" ∧ j = i then some v else boundAt mm k j) ∨
       (¬ v < m ∧ M < v ∧ ∀ k j, boundAt mm' k j =
          if k = t ++ "_max" ∧ j = i then some v else boundAt mm k j) ∨
       (¬ v < m ∧ ¬ M < v ∧ mm' = mm)) := by
  simp only [scaleComp, Option.bind_eq_some, Option.pure_def,
    Option.some.injEq, bind, Prod.mk.injEq] at h
  obtain ⟨mins, hmins, maxs, hmaxs, m, hm, M, hM, hs, hmm⟩ := h
  refine ⟨m, M, ?_, ?_, hs.symm, ?_⟩
  · simp [boundAt, hmins, hm]
  · simp [boundAt, hmaxs, hM]
  · by_cases hlt : v < m
    · refine Or.inl ⟨hlt, fun k j => ?_⟩
      rw [← hmm, if_pos hlt]
      by_cases hk : k = t ++ "_min"
      · subst hk
        rw [boundAt, lookupA_updateA_self, hmins]
        by_cases hj : j = i
        · subst hj
          simp [setIdx, get?_modIdx_self, hm]
        · simp [setIdx, get?_modIdx_ne _ _ hj, boundAt, hmins, hj]
      · rw [boundAt, lookupA_updateA_ne _ _ hk]
        simp [boundAt, hk]
    · by_cases hgt : M < v
      · refine Or.inr (Or.inl ⟨hlt, hgt, fun k j => ?_⟩)
        rw [← hmm, if_neg hlt, if_pos hgt]
        by_cases hk : k = t ++ "_max"
        · subst hk
          rw [boundAt, lookupA_updateA_self, hmaxs]
          by_cases hj : j = i
          · subst hj
            simp [setIdx, get?_modIdx_self, hM]
          · simp [setIdx, get?_modIdx_ne _ _ hj, boundAt, hmaxs, hj]
        · rw [boundAt, lookupA_updateA_ne _ _ hk]
          simp [boundAt, hk]
      · refine Or.inr (Or.inr ⟨hlt, hgt, ?_⟩)
        rw [← hmm, if_neg hlt, if_neg hgt]

/-- Specification of the whole `enumerate(value)` loop: the scaled vector is
computed componentwise from the bounds as stored *before the call* (earlier
components only ever write their own index, so the bounds a later component
reads at its index are the pre-call ones). -/
theorem scaleGo_spec (t : String) (value : List ℚ) :
    ∀ (n : ℕ) (mm : MinMax) (r : List ℚ) (mm' : MinMax),
    scaleGo t (List.enumFrom n value) mm = some (r, mm') →
    ∀ d v, value[d]? = some v → ∃ m M,
      boundAt mm (t ++ "_min") (n + d) = some m ∧
      boundAt mm (t ++ "_max") (n + d) = some M ∧
      r[d]? = some ((v - m) / (M - m)) := by
  induction value with
  | nil =>
    intro n mm r mm' _ d v hd
    simp at hd
  | cons v0 rest ih =>
    intro n mm r mm' h d v hd
    simp only [List.enumFrom, scaleGo, Option.bind_eq_some, Option.pure_def,
      Option.some.injEq, bind] at h
    obtain ⟨⟨s, mm₁⟩, hstep, ⟨rs, mm₂⟩, hrest, hpair⟩ := h
    obtain ⟨hr, hmm2⟩ := Prod.mk.injEq .. ▸ hpair
    obtain ⟨m, M, hm, hM, hs, hcases⟩ := scaleComp_spec _ _ _ _ _ _ hstep
    cases d with
    | zero =>
      simp only [List.getElem?_cons_zero, Option.some.injEq] at hd
      subst hd
      refine ⟨m, M, by simpa using hm, by simpa using hM, ?_⟩
      subst hr
      simpa using hs
    | succ d' =>
      simp only [List.getElem?_cons_succ] at hd
      have hmm2' : mm₂ = mm' := hmm2
      obtain ⟨m', M', hm', hM', hr'⟩ := ih (n + 1) mm₁ rs mm₂ hrest d' v hd
      have hidx : ∀ k, boundAt mm₁ k (n + 1 + d') = boundAt mm k (n + 1 + d') := by
        intro k
        rcases hcases with ⟨_, hf⟩ | ⟨_, _, hf⟩ | ⟨_, _, heq⟩
        · rw [hf]
          exact if_neg (fun hc => by omega)
        · rw [hf]
          exact if_neg (fun hc => by omega)
        · rw [heq]
      refine ⟨m', M', ?_, ?_, ?_⟩
      · rw [show n + (d' + 1) = n + 1 + d' by omega]
        rw [← hidx]
        exact hm'
      · rw [show n + (d' + 1) = n + 1 + d' by omega]
        rw [← hidx]
        exact hM'
      · subst hr
        simpa [hmm2'] using hr'

/-- The stored bounds only ever widen in one `scaleComp` step, and every
defined bound stays defined. -/
def BoundsWiden (mm mm' : MinMax) : Prop :=
  ∀ k j q, boundAt mm k j = some q → ∃ q', boundAt mm' k j = some q' ∧
    (isMinKey k → q' ≤ q) ∧ (isMaxKey k → q ≤ q')

theorem boundsWiden_refl (mm : MinMax) : BoundsWiden mm mm :=
  fun _ _ q h => ⟨q, h, fun _ => le_refl q, fun _ => le_refl q⟩

theorem boundsWiden_trans {mm₁ mm₂ mm₃ : MinMax} (h1 : BoundsWiden mm₁ mm₂)
    (h2 : BoundsWiden mm₂ mm₃) : BoundsWiden mm₁ mm₃ := by
  intro k j q hq
  obtain ⟨q', hq', hmin, hmax⟩ := h1 k j q hq
  obtain ⟨q'', hq'', hmin', hmax'⟩ := h2 k j q' hq'
  exact ⟨q'', hq'', fun hk => le_trans (hmin' hk) (hmin hk),
    fun hk => le_trans (hmax hk) (hmax' hk)⟩

theorem scaleComp_widen {mm : MinMax} {t : String} {i : ℕ} {v s : ℚ}
    {mm' : MinMax} (h : scaleComp mm t i v = some (s, mm')) :
    BoundsWiden mm mm' := by
  obtain ⟨m, M, hm, hM, _, hcases⟩ := scaleComp_spec _ _ _ _ _ _ h
  intro k j q hq
  rcases hcases with ⟨hlt, hf⟩ | ⟨_, hgt, hf⟩ | ⟨_, _, heq⟩
  · rw [hf]
    by_cases hc : k = t ++ "_min" ∧ j = i
    · obtain ⟨hk, hj⟩ := hc
      subst hk; subst hj
      rw [if_pos ⟨rfl, rfl⟩]
      have hqm : q = m := by rw [hq] at hm; exact (Option.some.injEq .. ▸ hm)
      refine ⟨v, rfl, fun _ => by rw [hqm]; exact le_of_lt hlt, fun hk => ?_⟩
      exact absurd hk (fun hk' =>
        not_isMinKey_and_isMaxKey _ (isMinKey_append t) hk')
    · rw [if_neg hc]
      exact ⟨q, hq, fun _ => le_refl q, fun _ => le_refl q⟩
  · rw [hf]
    by_cases hc : k = t ++ "_max" ∧ j = i
    · obtain ⟨hk, hj⟩ := hc
      subst hk; subst hj
      rw [if_pos ⟨rfl, rfl⟩]
      have hqM : q = M := by rw [hq] at hM; exact (Option.some.injEq .. ▸ hM)
      refine ⟨v, rfl, fun hk => ?_, fun _ => by rw [hqM]; exact le_of_lt hgt⟩
      exact absurd hk (fun hk' =>
        not_isMinKey_and_isMaxKey _ hk' (isMaxKey_append t))
    · rw [if_neg hc]
      exact ⟨q, hq, fun _ => le_refl q, fun _ => le_refl q⟩
  · rw [heq]
    exact ⟨q, hq, fun _ => le_refl q, fun _ => le_refl q⟩

theorem scaleGo_widen (t : String) : ∀ (pairs : List (ℕ × ℚ)) (mm : MinMax)
    (r : List ℚ) (mm' : MinMax), scaleGo t pairs mm = some (r, mm') →
    BoundsWiden mm mm' := by
  intro pairs
  induction pairs with
  | nil =>
    intro mm r mm' h
    simp only [scaleGo, Option.some.injEq] at h
    rw [← (Prod.mk.inj h).2]
    exact boundsWiden_refl mm
  | cons p rest ih =>
    intro mm r mm' h
    obtain ⟨i, v⟩ := p
    simp only [scaleGo, Option.bind_eq_some, Option.pure_def,
      Option.some.injEq, bind] at h
    obtain ⟨⟨s, mm₁⟩, hstep, ⟨rs, mm₂⟩, hrest, hpair⟩ := h
    have hmm2 : mm₂ = mm' := (Prod.mk.injEq .. ▸ hpair).2
    exact boundsWiden_trans (scaleComp_widen hstep) (hmm2 ▸ ih mm₁ rs mm₂ hrest)

theorem scaleCalls_widen : ∀ (calls : List (String × List ℚ)) (mm mm' : MinMax),
    scaleCalls mm calls = some mm' → BoundsWiden mm mm' := by
  intro calls
  induction calls with
  | nil =>
    intro mm mm' h
    simp only [scaleCalls, List.foldlM, pure, Option.some.injEq] at h
    rw [← h]
    exact boundsWiden_refl mm
  | cons c rest ih =>
    intro mm mm' h
    simp only [scaleCalls, List.foldlM_cons, Option.map_eq_map, bind,
      Option.bind_eq_some, Option.map_eq_some'] at h
    obtain ⟨mm₁, ⟨⟨r, mm₁'⟩, hcall, hsnd⟩, hrest⟩ := h
    have h1 : BoundsWiden mm mm₁ := by
      rw [← hsnd]
      exact scaleGo_widen c.1 _ mm r mm₁' hcall
    exact boundsWiden_trans h1 (ih mm₁ mm' hrest)

/-- Invariant of every scaling state reachable from `initMinMax`: every stored
minimum is at most `0` and every stored maximum is at least `1`, so maxima and
minima can never meet. -/
def SafeBounds (mm : MinMax) : Prop :=
  ∀ k j q, boundAt mm k j = some q →
    (isMinKey k → q ≤ 0) ∧ (isMaxKey k → 1 ≤ q)

theorem lookupA_mem {β : Type _} : ∀ (l : List (String × β)) (k : String)
    (v : β), lookupA l k = some v → (k, v) ∈ l := by
  intro l
  induction l with
  | nil => intro k v h; simp [lookupA] at h
  | cons p t ih =>
    intro k v h
    obtain ⟨a, b⟩ := p
    by_cases ha : a = k
    · subst ha
      have heq : lookupA ((a, b) :: t) a = some b := by simp [lookupA]
      rw [heq, Option.some.injEq] at h
      subst h
      exact List.mem_cons_self _ _
    · simp only [lookupA, if_neg ha] at h
      exact List.mem_cons_of_mem _ (ih k v h)

theorem safeBounds_init : SafeBounds initMinMax := by
  have hall : ∀ p ∈ initMinMax, ∀ q ∈ p.2,
      (isMinKey p.1 → q ≤ 0) ∧ (isMaxKey p.1 → 1 ≤ q) := by decide
  intro k j q h
  rcases hmem : lookupA initMinMax k with _ | l
  · simp [boundAt, hmem] at h
  · have hq : q ∈ l := List.getElem?_mem (by simpa [boundAt, hmem] using h)
    exact hall (k, l) (lookupA_mem _ _ _ hmem) q hq

theorem scaleComp_safe {mm : MinMax} {t : String} {i : ℕ} {v s : ℚ}
    {mm' : MinMax} (hsafe : SafeBounds mm)
    (h : scaleComp mm t i v = some (s, mm')) : SafeBounds mm' := by
  obtain ⟨m, M, hm, hM, _, hcases⟩ := scaleComp_spec _ _ _ _ _ _ h
  intro k j q hq
  rcases hcases with ⟨hlt, hf⟩ | ⟨_, hgt, hf⟩ | ⟨_, _, heq⟩
  · rw [hf] at hq
    by_cases hc : k = t ++ "_min" ∧ j = i
    · obtain ⟨hk, hj⟩ := hc
      subst hk; subst hj
      rw [if_pos ⟨rfl, rfl⟩, Option.some.injEq] at hq
      subst hq
      have hm0 : m ≤ 0 := (hsafe _ _ _ hm).1 (isMinKey_append t)
      refine ⟨fun _ => le_trans (le_of_lt hlt) hm0, fun hk => ?_⟩
      exact absurd hk (fun hk' =>
        not_isMinKey_and_isMaxKey _ (isMinKey_append t) hk')
    · rw [if_neg hc] at hq
      exact hsafe _ _ _ hq
  · rw [hf] at hq
    by_cases hc : k = t ++ "_max" ∧ j = i
    · obtain ⟨hk, hj⟩ := hc
      subst hk; subst hj
      rw [if_pos ⟨rfl, rfl⟩, Option.some.injEq] at hq
      subst hq
      have hM1 : 1 ≤ M := (hsafe _ _ _ hM).2 (isMaxKey_append t)
      refine ⟨fun hk => ?_, fun _ => le_trans hM1 (le_of_lt hgt)⟩
      exact absurd hk (fun hk' =>
        not_isMinKey_and_isMaxKey _ hk' (isMaxKey_append t))
    · rw [if_neg hc] at hq
      exact hsafe _ _ _ hq
  · rw [heq] at hq
    exact hsafe _ _ _ hq

theorem scaleGo_safe (t : String) : ∀ (pairs : List (ℕ × ℚ)) (mm : MinMax)
    (r : List ℚ) (mm' : MinMax), SafeBounds mm →
    scaleGo t pairs mm = some (r, mm') → SafeBounds mm' := by
  intro pairs
  induction pairs with
  | nil =>
    intro mm r mm' hsafe h
    simp only [scaleGo, Option.some.injEq] at h
    rw [← (Prod.mk.inj h).2]
    exact hsafe
  | cons p rest ih =>
    intro mm r mm' hsafe h
    obtain ⟨i, v⟩ := p
    simp only [scaleGo, Option.bind_eq_some, Option.pure_def,
      Option.some.injEq, bind] at h
    obtain ⟨⟨s, mm₁⟩, hstep, ⟨rs, mm₂⟩, hrest, hpair⟩ := h
    have hmm2 : mm₂ = mm' := (Prod.mk.inj hpair).2
    exact hmm2 ▸ ih mm₁ rs mm₂ (scaleComp_safe hsafe hstep) hrest

theorem scaleCalls_safe : ∀ (calls : List (String × List ℚ)) (mm mm' : MinMax),
    SafeBounds mm → scaleCalls mm calls = some mm' → SafeBounds mm' := by
  intro calls
  induction calls with
  | nil =>
    intro mm mm' hsafe h
    simp only [scaleCalls, List.foldlM, pure, Option.some.injEq] at h
    rw [← h]
    exact hsafe
  | cons c rest ih =>
    intro mm mm' hsafe h
    simp only [scaleCalls, List.foldlM_cons, Option.map_eq_map, bind,
      Option.bind_eq_some, Option.map_eq_some'] at h
    obtain ⟨mm₁, ⟨⟨r, mm₁'⟩, hcall, hsnd⟩, hrest⟩ := h
    have h1 : SafeBounds mm₁ := by
      rw [← hsnd]
      exact scaleGo_safe c.1 _ mm r mm₁' hsafe hcall
    exact ih mm₁ mm' h1 hrest

/-- Shared concrete evaluation: one `scale_data` call on the initial bounds
with the raw rate-of-turn value `5` returns the *unscaled-looking* output `5`
(the ratio is computed with the pre-update bounds `[0, 1]`) and widens the
stored maximum to `5`. -/
theorem scale_rot5_eval : scale_data initMinMax "rot" [5] =
    some ([5], updateA initMinMax "rot_max" (fun l => setIdx l 0 5)) := by
  simp only [scale_data, scaleGo, scaleComp, List.enum, List.enumFrom]
  rw [show lookupA initMinMax ("rot" ++ "_min") = some [0] from rfl,
      show lookupA initMinMax ("rot" ++ "_max") = some [1] from rfl]
  norm_num
  rfl

theorem scaleCalls_rot5_eval : scaleCalls initMinMax [("rot", [5])] =
    some (updateA initMinMax "rot_max" (fun l => setIdx l 0 5)) := by
  simp [scaleCalls, scale_rot5_eval]

/-- Claim C1, counterexample.  The claim says the bounds are updated in place
*before* the ratio is computed, so that from initial bounds `[0, 1]` the raw
rate-of-turn value `5` (a new maximum) is mapped to exactly `1.0`.  In the
source the ratio is computed from the local variables `minimum`/`maximum`
read *before* the update, so the call returns `5.0`, not `1.0`. -/
theorem c1_counterexample :
    scale_data initMinMax "rot" [5] =
      some ([5], updateA initMinMax "rot_max" (fun l => setIdx l 0 5)) ∧
    (1 : ℚ) < 5 := ⟨scale_rot5_eval, by norm_num⟩

/-- Claim C1, amended.  Each scaled component equals
`(raw - min) / (max - min)` where `min`/`max` are the bounds stored *before*
the call (the widening update happens first, but the ratio uses the values
read before it), so a raw value that sets a new extreme is mapped outside the
unit interval rather than to `0.0`/`1.0`. -/
theorem c1_scale_uses_preupdate_bounds (mm : MinMax) (t : String)
    (value r : List ℚ) (mm' : MinMax)
    (h : scale_data mm t value = some (r, mm')) :
    ∀ i v, value[i]? = some v → ∃ m M,
      boundAt mm (t ++ "_min") i = some m ∧
      boundAt mm (t ++ "_max") i = some M ∧
      r[i]? = some ((v - m) / (M - m)) := by
  intro i v hv
  have h0 : scaleGo t (List.enumFrom 0 value) mm = some (r, mm') := h
  simpa using scaleGo_spec t value 0 mm r mm' h0 i v hv

/-- Witness for the amended claim C1 at the concrete trace of the spec's
scenario: raw value `5` from the initial bounds is scaled with the pre-update
bounds `0` and `1`, giving `(5 - 0) / (1 - 0)`. -/
theorem c1_witness : ∃ m M,
    boundAt initMinMax ("rot" ++ "_min") 0 = some m ∧
    boundAt initMinMax ("rot" ++ "_max") 0 = some M ∧
    ([5] : List ℚ)[0]? = some ((5 - m) / (M - m)) :=
  c1_scale_uses_preupdate_bounds initMinMax "rot" [5] [5]
    (updateA initMinMax "rot_max" (fun l => setIdx l 0 5))
    scale_rot5_eval 0 5 (by simp)

/-- Claim C7, counterexample.  The claim asserts that from the initial bounds
`min = [0]`, `max = [1]` some finite stream of identical raw values drives
the stored rate-of-turn bounds to `max = min`, reaching the unguarded
division by zero.  In fact bounds only ever widen, so the stored minimum
stays at most `0` and the stored maximum stays at least `1`: no stream of
calls can make them meet. -/
theorem c7_counterexample :
    ¬ ∃ (v : ℚ) (n : ℕ) (mm' : MinMax),
      scaleCalls initMinMax (List.replicate n ("rot", [v])) = some mm' ∧
      boundAt mm' "rot_min" 0 = boundAt mm' "rot_max" 0 := by
  rintro ⟨v, n, mm', hcalls, heq⟩
  have hsafe := scaleCalls_safe _ _ _ safeBounds_init hcalls
  have hwide := scaleCalls_widen _ _ _ hcalls
  obtain ⟨m, hm, -, -⟩ := hwide "rot_min" 0 0 rfl
  obtain ⟨M, hM, -, -⟩ := hwide "rot_max" 0 1 rfl
  rw [hm, hM, Option.some.injEq] at heq
  have h1 : m ≤ 0 := (hsafe _ _ _ hm).1 (by decide)
  have h2 : 1 ≤ M := (hsafe _ _ _ hM).2 (by decide)
  rw [heq] at h1
  linarith

/-- Claim C7, amended.  Starting from the initial per-sensor bounds
`min = [0]`, `max = [1]`, after any finite sequence of `scale_data` calls
every stored minimum is still at most `0` and every stored maximum at least
`1`, so every divisor `max - min` the unguarded division can use is at least
`1`: the divide-by-zero branch is unreachable from the initial state. -/
theorem c7_divide_by_zero_unreachable (calls : List (String × List ℚ))
    (mm' : MinMax) (h : scaleCalls initMinMax calls = some mm') :
    ∀ t i m M, boundAt mm' (t ++ "_min") i = some m →
      boundAt mm' (t ++ "_max") i = some M →
      m ≤ 0 ∧ 1 ≤ M ∧ 1 ≤ M - m := by
  intro t i m M hm hM
  have hsafe := scaleCalls_safe _ _ _ safeBounds_init h
  have h1 : m ≤ 0 := (hsafe _ _ _ hm).1 (isMinKey_append t)
  have h2 : 1 ≤ M := (hsafe _ _ _ hM).2 (isMaxKey_append t)
  exact ⟨h1, h2, by linarith⟩

/-- Witness for the amended claim C7: after one call with raw value `5` the
stored rate-of-turn bounds are `0` and `5` and their distance is at least
`1`. -/
theorem c7_witness :
    scaleCalls initMinMax [("rot", [5])] =
      some (updateA initMinMax "rot_max" (fun l => setIdx l 0 5)) ∧
    ((0 : ℚ) ≤ 0 ∧ (1 : ℚ) ≤ 5 ∧ (1 : ℚ) ≤ 5 - 0) :=
  ⟨scaleCalls_rot5_eval,
    c7_divide_by_zero_unreachable [("rot", [5])]
      (updateA initMinMax "rot_max" (fun l => setIdx l 0 5))
      scaleCalls_rot5_eval "rot" 0 0 5 rfl rfl⟩

/-- Claim C8.  For every data type and vector component, across any sequence
of `scale_data` calls the stored minimum is non-increasing and the stored
maximum is non-decreasing: the bounds only widen and never shrink, even when
later raw values lie strictly inside them. -/
theorem c8_bounds_only_widen (mm : MinMax) (calls : List (String × List ℚ))
    (mm' : MinMax) (h : scaleCalls mm calls = some mm') :
    ∀ t i, (∀ q, boundAt mm (t ++ "_min") i = some q →
        ∃ q', boundAt mm' (t ++ "_min") i = some q' ∧ q' ≤ q) ∧
      (∀ q, boundAt mm (t ++ "_max") i = some q →
        ∃ q', boundAt mm' (t ++ "_max") i = some q' ∧ q ≤ q') := by
  intro t i
  have hwide := scaleCalls_widen _ _ _ h
  constructor
  · intro q hq
    obtain ⟨q', hq', hmin, -⟩ := hwide _ i q hq
    exact ⟨q', hq', hmin (isMinKey_append t)⟩
  · intro q hq
    obtain ⟨q', hq', -, hmax⟩ := hwide _ i q hq
    exact ⟨q', hq', hmax (isMaxKey_append t)⟩

/-- Witness for claim C8: one concrete call with raw value `5` from the
initial bounds, at the rate-of-turn component. -/
theorem c8_witness :
    (∀ q, boundAt initMinMax ("rot" ++ "_min") 0 = some q →
      ∃ q', boundAt (updateA initMinMax "rot_max" (fun l => setIdx l 0 5))
        ("rot" ++ "_min") 0 = some q' ∧ q' ≤ q) ∧
    (∀ q, boundAt initMinMax ("rot" ++ "_max") 0 = some q →
      ∃ q', boundAt (updateA initMinMax "rot_max" (fun l => setIdx l 0 5))
        ("rot" ++ "_max") 0 = some q' ∧ q ≤ q') :=
  c8_bounds_only_widen initMinMax [("rot", [5])]
    (updateA initMinMax "rot_max" (fun l => setIdx l 0 5))
    scaleCalls_rot5_eval "rot" 0

/-! ## Outbound Euler components: `XdaDevice.recording_loop`

Lines 376-397 of src/xda_device.py convert the device's Euler angles to
radians, shift the first and third components by `+ 1.0` (the second gets no
shift), and then add `+ π` to each component just before appending to the
outbound OSC message. -/

/-- The `euler_value` list built at src/xda_device.py:380-384. -/
noncomputable def euler_value (x y z : ℝ) : ℝ × ℝ × ℝ :=
  (Real.pi * x / 180 + 1.0, Real.pi * y / 180, Real.pi * z / 180 + 1.0)

/-- The three Euler components appended to the outbound OSC message at
src/xda_device.py:395-397: each `euler_value` component plus `π`. -/
noncomputable def oscEuler (x y z : ℝ) : ℝ × ℝ × ℝ :=
  ((euler_value x y z).1 + Real.pi, (euler_value x y z).2.1 + Real.pi,
   (euler_value x y z).2.2 + Real.pi)

/-- Claim C6, counterexample.  The claim says each outbound Euler component
is the radian-converted angle shifted by `+π` and then by a further `+π`, so
at angles `(0, 0, 0)` all three would be `2π`.  The source instead shifts the
first and third components by `+1.0` (and the second not at all) before the
single `+π`, giving `(1 + π, π, 1 + π)`, each strictly below `2π`. -/
theorem c6_counterexample :
    oscEuler 0 0 0 = (1 + Real.pi, Real.pi, 1 + Real.pi) ∧
    1 + Real.pi < 2 * Real.pi ∧ Real.pi < 2 * Real.pi := by
  refine ⟨?_, by linarith [Real.pi_gt_three], by linarith [Real.pi_pos]⟩
  simp only [oscEuler, euler_value, Prod.mk.injEq]
  norm_num

/-- Claim C6, amended.  Each outbound Euler component equals the
radian-converted angle shifted by `+1.0` (first and third components; the
second gets no such shift) and then by `+π`; for device angles in
`[-180°, 180°]` every outbound component still lies in the claimed range
`[0, 4π]` (more precisely in `[1, 1 + 2π]` resp. `[0, 2π]`). -/
theorem c6_euler_components (x y z : ℝ) (hx1 : -180 ≤ x) (hx2 : x ≤ 180)
    (hy1 : -180 ≤ y) (hy2 : y ≤ 180) (hz1 : -180 ≤ z) (hz2 : z ≤ 180) :
    oscEuler x y z = (Real.pi * x / 180 + 1 + Real.pi,
        Real.pi * y / 180 + Real.pi, Real.pi * z / 180 + 1 + Real.pi) ∧
    (0 ≤ (oscEuler x y z).1 ∧ (oscEuler x y z).1 ≤ 4 * Real.pi) ∧
    (0 ≤ (oscEuler x y z).2.1 ∧ (oscEuler x y z).2.1 ≤ 4 * Real.pi) ∧
    (0 ≤ (oscEuler x y z).2.2 ∧ (oscEuler x y z).2.2 ≤ 4 * Real.pi) := by
  have hp := Real.pi_pos
  have hp3 := Real.pi_gt_three
  have bx1 : Real.pi * (-180) ≤ Real.pi * x :=
    mul_le_mul_of_nonneg_left hx1 (le_of_lt hp)
  have bx2 : Real.pi * x ≤ Real.pi * 180 :=
    mul_le_mul_of_nonneg_left hx2 (le_of_lt hp)
  have by1 : Real.pi * (-180) ≤ Real.pi * y :=
    mul_le_mul_of_nonneg_left hy1 (le_of_lt hp)
  have by2 : Real.pi * y ≤ Real.pi * 180 :=
    mul_le_mul_of_nonneg_left hy2 (le_of_lt hp)
  have bz1 : Real.pi * (-180) ≤ Real.pi * z :=
    mul_le_mul_of_nonneg_left hz1 (le_of_lt hp)
  have bz2 : Real.pi * z ≤ Real.pi * 180 :=
    mul_le_mul_of_nonneg_left hz2 (le_of_lt hp)
  refine ⟨?_, ⟨?_, ?_⟩, ⟨?_, ?_⟩, ⟨?_, ?_⟩⟩ <;>
    simp only [oscEuler, euler_value, Prod.mk.injEq]
  · norm_num
  all_goals linarith

/-- Witness for the amended claim C6 at device angles `(0, 0, 0)`. -/
theorem c6_witness :
    oscEuler 0 0 0 = (Real.pi * 0 / 180 + 1 + Real.pi,
        Real.pi * 0 / 180 + Real.pi, Real.pi * 0 / 180 + 1 + Real.pi) ∧
    (0 ≤ (oscEuler 0 0 0).1 ∧ (oscEuler 0 0 0).1 ≤ 4 * Real.pi) ∧
    (0 ≤ (oscEuler 0 0 0).2.1 ∧ (oscEuler 0 0 0).2.1 ≤ 4 * Real.pi) ∧
    (0 ≤ (oscEuler 0 0 0).2.2 ∧ (oscEuler 0 0 0).2.2 ≤ 4 * Real.pi) :=
  c6_euler_components 0 0 0 (by norm_num) (by norm_num) (by norm_num)
    (by norm_num) (by norm_num) (by norm_num)

/-! ## The telemetry store: `dancers` (src/sensors.py:6-62)

The store is a list of three dancers; each dancer is a dict from sensor keys
`"snsr_1"`..`"snsr_3"` to a sensor-data dict; a sensor-data dict maps base
channel labels to series (lists of floats, modelled as `List ℝ`) and
`"correlation_<label>"` keys to inner dicts from a partner key (`"snsr_j"` or
`"dancer_k"`) to a correlation series. -/

abbrev Series := List ℝ

/-- A value of a sensor-data dict: either a plain series or a correlation
dict. -/
inductive Entry where
  | ser : Series → Entry
  | corr : List (String × Series) → Entry

abbrev SensorData := List (String × Entry)
abbrev DancerData := List (String × SensorData)
abbrev Store := List DancerData

/-- Default `number_of_dancers` of `dancers()` (src/sensors.py:6). -/
def numberOfDancers : ℕ := 3

/-- Default `number_of_sensors` of `dancers()` (src/sensors.py:6). -/
def numberOfSensors : ℕ := 3

/-- The channel label list of `dancers()` (src/sensors.py:32). -/
def labels : List String :=
  ["tot_a", "b_tot_a", "rot", "ori_p", "ori_r", "ori_y", "acc_x", "acc_y",
   "acc_z", "gyr_x", "gyr_y", "gyr_z", "mag_x", "mag_y", "mag_z"]

/-- Data plots hold 500 samples, initialised to zeros (src/sensors.py:34-38). -/
def zeros500 : Series := List.replicate 500 0

/-- Fill one sensor dict with the base labels, each `[0] * 500`
(src/sensors.py:35-38). -/
def addBaseLabels (sd : SensorData) : SensorData :=
  labels.foldl (fun d lbl => setA d lbl (Entry.ser zeros500)) sd

/-- The inner dict of a fresh `correlation_<label>` entry for dancer
`dIdx` (0-based): `snsr_1`..`snsr_3` then `dancer_k` for every other dancer
(src/sensors.py:54-61). -/
def corrInit (dIdx : ℕ) : List (String × Series) :=
  (List.range' 1 numberOfSensors).map
    (fun jj => ("snsr_" ++ toString jj, zeros500)) ++
  (List.range numberOfDancers).filterMap
    (fun k => if k = dIdx then none
      else some ("dancer_" ++ toString (k + 1), zeros500))

/-- Add the `correlation_<label>` key to one sensor dict unless it is already
there (src/sensors.py:52-61). -/
def addCorrKey (dIdx : ℕ) (sd : SensorData) (lbl : String) : SensorData :=
  if (lookupA sd ("correlation_" ++ lbl)).isSome then sd
  else sd ++ [("correlation_" ++ lbl, Entry.corr (corrInit dIdx))]

/-- The sensor-pair loop `for i in 1..n-1, for j in i+1..n`
(src/sensors.py:45-46). -/
def pairsIJ : List (ℕ × ℕ) :=
  (List.range' 1 (numberOfSensors - 1)).flatMap (fun i =>
    (List.range' (i + 1) (numberOfSensors - i)).map (fun j => (i, j)))

/-- One dancer's dict as `dancers()` builds it: empty sensor dicts, then the
base labels, then the correlation keys added over the pair loop. -/
def buildDancer (dIdx : ℕ) : DancerData :=
  let empty : DancerData :=
    (List.range' 1 numberOfSensors).map
      (fun s => ("snsr_" ++ toString s, ([] : SensorData)))
  let withBase : DancerData :=
    (List.range' 1 numberOfSensors).foldl
      (fun d i => updateA d ("snsr_" ++ toString i) addBaseLabels) empty
  pairsIJ.foldl (fun d p =>
    labels.foldl (fun d2 lbl =>
      [p.1, p.2].foldl (fun d3 s =>
        updateA d3 ("snsr_" ++ toString s)
          (fun sd => addCorrKey dIdx sd lbl)) d2) d) withBase

/-- Model of `dancers()` (src/sensors.py:6-62): the initial store. -/
def dancers : Store :=
  (List.range numberOfDancers).map buildDancer

/-! ## Store accessors and updates -/

/-- One dancer's sensor dict (`self.dancers[d_idx][sensor_key]`). -/
def getSensor (st : Store) (d : ℕ) (s : String) : Option SensorData :=
  st[d]?.bind (fun dancer => lookupA dancer s)

/-- A base channel series (`dancer[snsr][label]` holding a list). -/
def getSeries (st : Store) (d : ℕ) (s lbl : String) : Option Series :=
  (getSensor st d s).bind (fun sd => (lookupA sd lbl).bind (fun e =>
    match e with
    | Entry.ser v => some v
    | Entry.corr _ => none))

/-- A correlation series (`dancer[snsr][correlation_label][key]`). -/
def getCorrSeries (st : Store) (d : ℕ) (s clbl key : String) : Option Series :=
  (getSensor st d s).bind (fun sd => (lookupA sd clbl).bind (fun e =>
    match e with
    | Entry.ser _ => none
    | Entry.corr m => lookupA m key))

/-- The keys of one sensor dict in insertion order
(`for label in dancer[sensor1]`). -/
def keysAt (st : Store) (d : ℕ) (s : String) : List String :=
  ((getSensor st d s).map keysA).getD []

/-- In-place mutation of one base channel series; a `correlation_` entry or a
missing key is left unchanged (the source would raise there, and no reachable
state does). -/
def updSeries (st : Store) (d : ℕ) (s lbl : String) (f : Series → Series) :
    Store :=
  modIdx st d (fun dancer => updateA dancer s (fun sd => updateA sd lbl
    (fun e => match e with
      | Entry.ser v => Entry.ser (f v)
      | Entry.corr m => Entry.corr m)))

/-- In-place mutation of one correlation series. -/
def updCorrSeries (st : Store) (d : ℕ) (s clbl key : String)
    (f : Series → Series) : Store :=
  modIdx st d (fun dancer => updateA dancer s (fun sd => updateA sd clbl
    (fun e => match e with
      | Entry.ser v => Entry.ser v
      | Entry.corr m => Entry.corr (updateA m key f))))

/-! ## Frame lemmas for the store updates -/

theorem getSeries_updSeries_self {st : Store} {d : ℕ} {s lbl : String}
    {xs : Series} (f : Series → Series) (h : getSeries st d s lbl = some xs) :
    getSeries (updSeries st d s lbl f) d s lbl = some (f xs) := by
  simp only [getSeries, getSensor, Option.bind_eq_some] at h
  obtain ⟨sd, ⟨dancer, hd, hs⟩, e, he, hser⟩ := h
  have hser' : e = Entry.ser xs := by
    cases e with
    | ser v => simp at hser; rw [hser]
    | corr m => simp at hser
  subst hser'
  simp only [getSeries, getSensor, updSeries, get?_modIdx_self, hd,
    Option.map_some', Option.some_bind, lookupA_updateA_self, hs,
    lookupA_updateA_self, he]

theorem getSeries_updSeries_frame {st : Store} {d d' : ℕ}
    {s s' lbl lbl' : String} (f : Series → Series)
    (h : ¬ (d' = d ∧ s' = s ∧ lbl' = lbl)) :
    getSeries (updSeries st d s lbl f) d' s' lbl' = getSeries st d' s' lbl' := by
  by_cases hd : d' = d
  · subst hd
    by_cases hs : s' = s
    · subst hs
      have hlbl : lbl' ≠ lbl := fun hc => h ⟨rfl, rfl, hc⟩
      simp only [getSeries, getSensor, updSeries, get?_modIdx_self]
      cases hdl : st[d']? with
      | none => rfl
      | some dancer =>
        simp only [Option.map_some', Option.some_bind, lookupA_updateA_self]
        cases hsl : lookupA dancer s' with
        | none => rfl
        | some sd =>
          simp only [Option.map_some', Option.some_bind,
            lookupA_updateA_ne _ _ hlbl]
    · simp only [getSeries, getSensor, updSeries, get?_modIdx_self]
      cases hdl : st[d']? with
      | none => rfl
      | some dancer =>
        simp only [Option.map_some', Option.some_bind,
          lookupA_updateA_ne _ _ hs]
  · simp only [getSeries, getSensor, updSeries, get?_modIdx_ne _ _ hd]

theorem getCorrSeries_updSeries {st : Store} {d : ℕ} {s lbl : String}
    (f : Series → Series) (d' : ℕ) (s' clbl key : String) :
    getCorrSeries (updSeries st d s lbl f) d' s' clbl key =
      getCorrSeries st d' s' clbl key := by
  by_cases hd : d' = d
  · subst hd
    simp only [getCorrSeries, getSensor, updSeries, get?_modIdx_self]
    cases hdl : st[d']? with
    | none => rfl
    | some dancer =>
      simp only [Option.map_some', Option.some_bind]
      by_cases hs : s' = s
      · subst hs
        rw [lookupA_updateA_self]
        cases hsl : lookupA dancer s' with
        | none => rfl
        | some sd =>
          simp only [Option.map_some', Option.some_bind]
          by_cases hl : clbl = lbl
          · subst hl
            rw [lookupA_updateA_self]
            cases hll : lookupA sd clbl with
            | none => rfl
            | some e => cases e <;> rfl
          · rw [lookupA_updateA_ne _ _ hl]
      · rw [lookupA_updateA_ne _ _ hs]
  · simp only [getCorrSeries, getSensor, get?_modIdx_ne _ _ hd, updSeries]

theorem getCorrSeries_updCorrSeries_self {st : Store} {d : ℕ}
    {s clbl key : String} {xs : Series} (f : Series → Series)
    (h : getCorrSeries st d s clbl key = some xs) :
    getCorrSeries (updCorrSeries st d s clbl key f) d s clbl key =
      some (f xs) := by
  simp only [getCorrSeries, getSensor, Option.bind_eq_some] at h
  obtain ⟨sd, ⟨dancer, hd, hs⟩, e, he, hcorr⟩ := h
  cases e with
  | ser v => simp at hcorr
  | corr m =>
    simp only at hcorr
    simp only [getCorrSeries, getSensor, updCorrSeries, get?_modIdx_self, hd,
      Option.map_some', Option.some_bind, lookupA_updateA_self, hs, he]
    simp only [lookupA_updateA_self, hcorr, Option.map_some']

theorem getCorrSeries_updCorrSeries_frame {st : Store} {d d' : ℕ}
    {s s' clbl clbl' key key' : String} (f : Series → Series)
    (h : ¬ (d' = d ∧ s' = s ∧ clbl' = clbl ∧ key' = key)) :
    getCorrSeries (updCorrSeries st d s clbl key f) d' s' clbl' key' =
      getCorrSeries st d' s' clbl' key' := by
  by_cases hd : d' = d
  · subst hd
    simp only [getCorrSeries, getSensor, updCorrSeries, get?_modIdx_self]
    cases hdl : st[d']? with
    | none => rfl
    | some dancer =>
      simp only [Option.map_some', Option.some_bind]
      by_cases hs : s' = s
      · subst hs
        rw [lookupA_updateA_self]
        cases hsl : lookupA dancer s' with
        | none => rfl
        | some sd =>
          simp only [Option.map_some', Option.some_bind]
          by_cases hl : clbl' = clbl
          · subst hl
            rw [lookupA_updateA_self]
            cases hll : lookupA sd clbl' with
            | none => rfl
            | some e =>
              cases e with
              | ser v => rfl
              | corr m =>
                have hk : key' ≠ key := fun hc => h ⟨rfl, rfl, rfl, hc⟩
                simp only [Option.map_some', Option.some_bind]
                exact lookupA_updateA_ne _ _ hk
          · rw [lookupA_updateA_ne _ _ hl]
      · rw [lookupA_updateA_ne _ _ hs]
  · simp only [getCorrSeries, getSensor, get?_modIdx_ne _ _ hd, updCorrSeries]

theorem getSeries_updCorrSeries {st : Store} {d : ℕ} {s clbl key : String}
    (f : Series → Series) (d' : ℕ) (s' lbl : String) :
    getSeries (updCorrSeries st d s clbl key f) d' s' lbl =
      getSeries st d' s' lbl := by
  by_cases hd : d' = d
  · subst hd
    simp only [getSeries, getSensor, updCorrSeries, get?_modIdx_self]
    cases hdl : st[d']? with
    | none => rfl
    | some dancer =>
      simp only [Option.map_some', Option.some_bind]
      by_cases hs : s' = s
      · subst hs
        rw [lookupA_updateA_self]
        cases hsl : lookupA dancer s' with
        | none => rfl
        | some sd =>
          simp only [Option.map_some', Option.some_bind]
          by_cases hl : lbl = clbl
          · subst hl
            rw [lookupA_updateA_self]
            cases hll : lookupA sd lbl with
            | none => rfl
            | some e => cases e <;> rfl
          · rw [lookupA_updateA_ne _ _ hl]
      · rw [lookupA_updateA_ne _ _ hs]
  · simp only [getSeries, getSensor, get?_modIdx_ne _ _ hd, updCorrSeries]

theorem keysAt_updSeries (st : Store) (d : ℕ) (s lbl : String)
    (f : Series → Series) (d' : ℕ) (s' : String) :
    keysAt (updSeries st d s lbl f) d' s' = keysAt st d' s' := by
  by_cases hd : d' = d
  · subst hd
    simp only [keysAt, getSensor, updSeries, get?_modIdx_self]
    cases hdl : st[d']? with
    | none => rfl
    | some dancer =>
      simp only [Option.map_some', Option.some_bind]
      by_cases hs : s' = s
      · subst hs
        rw [lookupA_updateA_self]
        cases hsl : lookupA dancer s' with
        | none => rfl
        | some sd => simp [keysA_updateA]
      · rw [lookupA_updateA_ne _ _ hs]
  · simp only [keysAt, getSensor, get?_modIdx_ne _ _ hd, updSeries]

theorem keysAt_updCorrSeries (st : Store) (d : ℕ) (s clbl key : String)
    (f : Series → Series) (d' : ℕ) (s' : String) :
    keysAt (updCorrSeries st d s clbl key f) d' s' = keysAt st d' s' := by
  by_cases hd : d' = d
  · subst hd
    simp only [keysAt, getSensor, updCorrSeries, get?_modIdx_self]
    cases hdl : st[d']? with
    | none => rfl
    | some dancer =>
      simp only [Option.map_some', Option.some_bind]
      by_cases hs : s' = s
      · subst hs
        rw [lookupA_updateA_self]
        cases hsl : lookupA dancer s' with
        | none => rfl
        | some sd => simp [keysA_updateA]
      · rw [lookupA_updateA_ne _ _ hs]
  · simp only [keysAt, getSensor, get?_modIdx_ne _ _ hd, updCorrSeries]

/-! ## Appending with eviction, `Sensors.send_data` and the ingestion loop -/

/-- Append one sample and evict the oldest when the series has grown past 500
(src/sensors.py:187-191 and the analogous branches): `append`, compute
`cutoff = len - 500`, and `del l[0]` when `cutoff > 0`. -/
def appendEvict (l : Series) (v : ℝ) : Series :=
  let l2 := l ++ [v]
  if 0 < l2.length - 500 then l2.tail else l2

theorem foldl_appendEvict (vs : List ℝ) : ∀ (init : Series),
    init.length = 500 →
    vs.foldl appendEvict init = (init ++ vs).drop vs.length := by
  induction vs with
  | nil => intro init _; simp
  | cons v rest ih =>
    intro init hlen
    have hinit_ne : init ≠ [] := by
      intro hc
      rw [hc] at hlen
      simp at hlen
    have hstep : appendEvict init v = (init ++ [v]).tail := by
      simp only [appendEvict]
      rw [if_pos]
      simp [hlen]
    have hlen' : (appendEvict init v).length = 500 := by
      rw [hstep]
      simp [hlen]
    rw [List.foldl_cons, ih _ hlen', hstep]
    rw [List.tail_append_of_ne_nil hinit_ne]
    have h1 : init.tail ++ [v] ++ rest = (init ++ v :: rest).tail :=
      calc init.tail ++ [v] ++ rest = init.tail ++ (v :: rest) := by simp
        _ = (init ++ v :: rest).tail :=
          (List.tail_append_of_ne_nil hinit_ne).symm
    rw [h1, ← List.drop_one, List.drop_drop, Nat.add_comm]
    simp

/-- The static sensor-location table `Sensors.locations`
(src/sensors.py:67-84): hardware id to (side, dancer number, sensor number). -/
def locations : List (String × (String × ℕ × ℕ)) :=
  [("00B4F11A", ("left", 1, 1)), ("00B4F114", ("right", 1, 2)),
   ("00B4F115", ("torso", 1, 3)), ("00B4F11B", ("left", 2, 1)),
   ("00B4F116", ("right", 2, 2)), ("00B4F119", ("torso", 2, 3)),
   ("00B4F11C", ("left", 3, 1)), ("00B4F107", ("right", 3, 2)),
   ("00B4F11D", ("torso", 3, 3))]

/-- The axis suffix list `self.axes` (src/sensors.py:111). -/
def axes : List String := ["x", "y", "z"]

/-- Model of `Sensors.send_data` (src/sensors.py:175-255).  An unknown
`sensor_id` is a Python `KeyError` at `Sensors.locations[sensor_id]` —
modelled as `none`; it is raised before any store mutation.  A too-short
`value` list would likewise raise `IndexError` (`none`); dashboard
`dpg.configure_item` calls are presentation-layer side effects outside the
store and are not modelled. -/
def send_data (st : Store) (sensor_id data_type : String) (value : List ℝ) :
    Option Store :=
  match lookupA locations sensor_id with
  | none => none
  | some (_, d, s) =>
    let d_idx := d - 1
    let sensor_key := "snsr_" ++ toString s
    if data_type = "acc" ∨ data_type = "gyr" ∨ data_type = "mag" then
      value.enum.foldlM (fun acc iv =>
        (axes[iv.1]?).map (fun ax =>
          updSeries acc d_idx sensor_key (data_type ++ "_" ++ ax)
            (fun l => appendEvict l iv.2))) st
    else if data_type = "ori" then
      match value with
      | p :: r :: yv :: _ =>
        some (updSeries (updSeries (updSeries st d_idx sensor_key "ori_p"
          (fun l => appendEvict l p)) d_idx sensor_key "ori_r"
          (fun l => appendEvict l r)) d_idx sensor_key "ori_y"
          (fun l => appendEvict l yv))
      | _ => none
    else if data_type = "rot" then
      match value with
      | v :: _ =>
        some (updSeries st d_idx sensor_key "rot" (fun l => appendEvict l v))
      | [] => none
    else if data_type = "tot_a" then
      match value with
      | v :: b :: _ =>
        some (updSeries (updSeries st d_idx sensor_key "tot_a"
          (fun l => appendEvict l v)) d_idx sensor_key "b_tot_a"
          (fun l => appendEvict l b))
      | _ => none
    else some st

/-- The labels of the series one `send_data` call appends to, per data-type
branch and in the order the source appends: the xyz coordinate branch
writes `<t>_x`, `<t>_y`, `<t>_z` (src/sensors.py:183-196), `ori` writes
`ori_p`, `ori_r`, `ori_y` (src/sensors.py:198-201), `rot` writes `rot`
(src/sensors.py:215-220) and `tot_a` writes `tot_a` then `b_tot_a`
(src/sensors.py:227-233); any other data type appends to no series.
Component `i` of a well-formed packet lands in the series named by entry
`i` of this list. -/
def branchLabels (t : String) : List String :=
  if t = "acc" ∨ t = "gyr" ∨ t = "mag" then [t ++ "_x", t ++ "_y", t ++ "_z"]
  else if t = "ori" then ["ori_p", "ori_r", "ori_y"]
  else if t = "rot" then ["rot"]
  else if t = "tot_a" then ["tot_a", "b_tot_a"]
  else []

/-- One `append`-and-evict per (label, sample) pair on one sensor dict, in
order: the cumulative store effect of a single `send_data` call. -/
def applyAppends (st : Store) (d : ℕ) (skey : String)
    (ps : List (String × ℝ)) : Store :=
  ps.foldl (fun s p => updSeries s d skey p.1 (fun l => appendEvict l p.2)) st

/-- A homogeneous stream of packets for one sensor and one data type,
delivered one packet at a time through `send_data`. -/
def sendStream (st : Store) (sensor_id data_type : String)
    (vs : List (List ℝ)) : Option Store :=
  vs.foldlM (fun s v => send_data s sensor_id data_type v) st

/-- The ingestion loop over decoded `(sensor_id, data_type, value)` samples:
each is dispatched through `send_data`, and a raised `KeyError` (`none`)
propagates, aborting the rest of the loop (src/xda_device.py:300-519 has no
handler around the dispatch calls). -/
def dispatchLoop (st : Store) (ps : List (String × String × List ℝ)) :
    Option Store :=
  ps.foldlM (fun s p => send_data s p.1 p.2.1 p.2.2) st

theorem zeros500_length : zeros500.length = 500 := by
  rw [zeros500, List.length_replicate]

theorem drop_window_append (init ws : List ℝ) (hinit : init.length = 500)
    (h : 500 < ws.length) :
    (init ++ ws).drop ws.length = ws.drop (ws.length - 500) := by
  obtain ⟨k, hk⟩ : ∃ k, ws.length = 500 + k := ⟨ws.length - 500, by omega⟩
  rw [hk, Nat.add_sub_cancel_left, ← List.drop_drop]
  have hz : List.drop 500 (init ++ ws) = ws := by
    rw [show (500 : ℕ) = init.length from hinit.symm]
    exact List.drop_left init ws
  rw [hz]

theorem string_append_right_inj {t a b : String} (h : t ++ a = t ++ b) :
    a = b := by
  apply String.ext
  have hd := congrArg String.data h
  simp only [String.data_append] at hd
  exact List.append_cancel_left hd

theorem branchLabels_nodup (t : String) : (branchLabels t).Nodup := by
  unfold branchLabels
  split_ifs with h1 h2 h3 h4
  · refine List.nodup_cons.mpr ⟨?_, List.nodup_cons.mpr
      ⟨?_, List.nodup_singleton _⟩⟩
    · intro hmem
      rcases List.mem_cons.mp hmem with hc | hc
      · exact absurd (string_append_right_inj hc) (by decide)
      · rw [List.mem_singleton] at hc
        exact absurd (string_append_right_inj hc) (by decide)
    · intro hmem
      rw [List.mem_singleton] at hmem
      exact absurd (string_append_right_inj hmem) (by decide)
  · decide
  · decide
  · decide
  · exact List.nodup_nil

theorem getSeries_applyAppends_notmem :
    ∀ (ps : List (String × ℝ)) (st : Store) (d : ℕ) (skey lbl : String),
    lbl ∉ ps.map Prod.fst →
    getSeries (applyAppends st d skey ps) d skey lbl =
      getSeries st d skey lbl := by
  intro ps
  induction ps with
  | nil => intro st d skey lbl _; rfl
  | cons p rest ih =>
    intro st d skey lbl hmem
    rw [List.map_cons] at hmem
    have h1 : lbl ≠ p.1 := by
      intro hc
      apply hmem
      rw [hc]
      exact List.mem_cons_self _ _
    have h2 : lbl ∉ rest.map Prod.fst := fun hc =>
      hmem (List.mem_cons_of_mem _ hc)
    have hstep : applyAppends st d skey (p :: rest) =
        applyAppends (updSeries st d skey p.1 (fun l => appendEvict l p.2))
          d skey rest := rfl
    rw [hstep, ih _ _ _ _ h2,
      getSeries_updSeries_frame _ (fun hc => h1 hc.2.2)]

theorem getSeries_applyAppends_mem :
    ∀ (ps : List (String × ℝ)) (st : Store) (d : ℕ) (skey lbl : String)
    (v : ℝ) (xs : Series), (ps.map Prod.fst).Nodup → (lbl, v) ∈ ps →
    getSeries st d skey lbl = some xs →
    getSeries (applyAppends st d skey ps) d skey lbl =
      some (appendEvict xs v) := by
  intro ps
  induction ps with
  | nil => intro st d skey lbl v xs _ hmem _; cases hmem
  | cons p rest ih =>
    intro st d skey lbl v xs hnd hmem hget
    rw [List.map_cons, List.nodup_cons] at hnd
    have hstep : applyAppends st d skey (p :: rest) =
        applyAppends (updSeries st d skey p.1 (fun l => appendEvict l p.2))
          d skey rest := rfl
    rw [hstep]
    rcases List.mem_cons.mp hmem with hc | hc
    · have hl : p.1 = lbl := by rw [← hc]
      have hv : p.2 = v := by rw [← hc]
      rw [hl, hv, getSeries_applyAppends_notmem rest _ d skey lbl
        (by rw [← hl]; exact hnd.1)]
      exact getSeries_updSeries_self _ hget
    · have hne : lbl ≠ p.1 := by
        intro hceq
        apply hnd.1
        rw [← hceq]
        exact List.mem_map.mpr ⟨(lbl, v), hc, rfl⟩
      have hget' : getSeries (updSeries st d skey p.1
          (fun l => appendEvict l p.2)) d skey lbl = some xs := by
        rw [getSeries_updSeries_frame _ (fun hq => hne hq.2.2)]
        exact hget
      exact ih _ _ _ _ _ _ hnd.2 hc hget'

theorem zip_getElem_mem :
    ∀ (L : List String) (v : List ℝ) (i : ℕ) (lbl : String),
    L[i]? = some lbl → i < v.length → (lbl, v.getD i 0) ∈ L.zip v := by
  intro L
  induction L with
  | nil => intro v i lbl h _; simp at h
  | cons l0 Lr ih =>
    intro v i lbl h hv
    cases v with
    | nil => simp at hv
    | cons v0 vr =>
      cases i with
      | zero =>
        simp only [List.getElem?_cons_zero, Option.some.injEq] at h
        subst h
        rw [List.getD_cons_zero]
        exact List.mem_cons_self _ _
      | succ j =>
        simp only [List.getElem?_cons_succ] at h
        have hv' : j < vr.length := by simpa using hv
        rw [List.getD_cons_succ]
        exact List.mem_cons_of_mem _ (ih vr j lbl h hv')

/-- One `send_data` call for a sensor present in the location table and a
well-formed packet (one component per label of the branch) performs exactly
one append-and-evict per branch label, component `i` of the packet going to
label `i`, in source order. -/
theorem send_data_appends (st : Store) (sensor_id side : String)
    (dnum snum : ℕ)
    (hloc : lookupA locations sensor_id = some (side, dnum, snum))
    (t : String) (value : List ℝ) (hne : branchLabels t ≠ [])
    (hlen : value.length = (branchLabels t).length) :
    send_data st sensor_id t value =
      some (applyAppends st (dnum - 1) ("snsr_" ++ toString snum)
        ((branchLabels t).zip value)) := by
  unfold send_data
  rw [hloc]
  by_cases h1 : t = "acc" ∨ t = "gyr" ∨ t = "mag"
  · rcases h1 with rfl | rfl | rfl <;>
    · obtain ⟨a, b, c, rfl⟩ := List.length_eq_three.mp (hlen.trans rfl)
      rfl
  · by_cases h2 : t = "ori"
    · subst h2
      obtain ⟨a, b, c, rfl⟩ := List.length_eq_three.mp (hlen.trans rfl)
      rfl
    · by_cases h3 : t = "rot"
      · subst h3
        obtain ⟨a, rfl⟩ := List.length_eq_one.mp (hlen.trans rfl)
        rfl
      · by_cases h4 : t = "tot_a"
        · subst h4
          obtain ⟨a, b, rfl⟩ := List.length_eq_two.mp (hlen.trans rfl)
          rfl
        · exfalso
          apply hne
          unfold branchLabels
          rw [if_neg h1, if_neg h2, if_neg h3, if_neg h4]

set_option maxRecDepth 2000 in
/-- Folding a per-packet dispatch over a stream: if every single call
appends one selected component to a fixed series, the whole stream folds
the same appends over that series. -/
theorem stream_foldlM_inv (F : Store → List ℝ → Option Store)
    (get : Store → Option Series) (sel : List ℝ → ℝ) (P : List ℝ → Prop)
    (hstep : ∀ st xs v, P v → get st = some xs →
      ∃ st', F st v = some st' ∧ get st' = some (appendEvict xs (sel v))) :
    ∀ (vs : List (List ℝ)) (st : Store) (xs : Series), (∀ v ∈ vs, P v) →
    get st = some xs →
    ∃ st', vs.foldlM F st = some st' ∧
      get st' = some (vs.foldl (fun l v => appendEvict l (sel v)) xs) := by
  intro vs
  induction vs with
  | nil => intro st xs _ h; exact ⟨st, rfl, h⟩
  | cons v rest ih =>
    intro st xs hP h
    obtain ⟨st1, hF, hg1⟩ := hstep st xs v (hP v (List.mem_cons_self _ _)) h
    obtain ⟨st', hs', hg'⟩ :=
      ih st1 _ (fun w hw => hP w (List.mem_cons_of_mem _ hw)) hg1
    refine ⟨st', ?_, ?_⟩
    · rw [List.foldlM_cons, hF]
      exact hs'
    · rw [List.foldl_cons]
      exact hg'

/-- Claim C2.  For every sensor in the location table, every data-type
branch of `send_data` and every series that branch appends to — the xyz
coordinate channels of `acc`/`gyr`/`mag` (src/sensors.py:183-196) as well
as the `ori`, `rot` and `tot_a`/`b_tot_a` series — feeding any stream of
more than 500 well-formed packets through `send_data`, starting from any
store holding that series at the invariant length 500 (the initial store
pre-fills every series with 500 zeros, src/sensors.py:34-38), leaves the
stored series equal to the last 500 appended component values in order
(oldest evicted first), of length exactly 500; and after every prefix of
the stream the stored series has length exactly 500, so it never exceeds
500 at any point. -/
theorem c2_window_holds_last_500 (sensor_id side : String) (dnum snum : ℕ)
    (hloc : lookupA locations sensor_id = some (side, dnum, snum))
    (t lbl : String) (i : ℕ) (hlbl : (branchLabels t)[i]? = some lbl)
    (vs : List (List ℝ)) (hlong : 500 < vs.length)
    (harity : ∀ v ∈ vs, v.length = (branchLabels t).length)
    (st0 : Store) (xs0 : Series)
    (hinit : getSeries st0 (dnum - 1) ("snsr_" ++ toString snum) lbl =
      some xs0)
    (hlen0 : xs0.length = 500) :
    ∃ st', sendStream st0 sensor_id t vs = some st' ∧
      getSeries st' (dnum - 1) ("snsr_" ++ toString snum) lbl =
        some ((vs.map (fun v => v.getD i 0)).drop (vs.length - 500)) ∧
      ((vs.map (fun v => v.getD i 0)).drop (vs.length - 500)).length =
        500 ∧
      ∀ p, p <+: vs → ∃ stp ys, sendStream st0 sensor_id t p = some stp ∧
        getSeries stp (dnum - 1) ("snsr_" ++ toString snum) lbl =
          some ys ∧ ys.length = 500 := by
  have hne : branchLabels t ≠ [] := by
    intro hc
    rw [hc] at hlbl
    simp at hlbl
  have hib : i < (branchLabels t).length := (List.getElem?_eq_some.mp hlbl).1
  have hstep : ∀ st xs v, v.length = (branchLabels t).length →
      getSeries st (dnum - 1) ("snsr_" ++ toString snum) lbl = some xs →
      ∃ st', send_data st sensor_id t v = some st' ∧
        getSeries st' (dnum - 1) ("snsr_" ++ toString snum) lbl =
          some (appendEvict xs (v.getD i 0)) := by
    intro st xs v hv hget
    refine ⟨_, send_data_appends st sensor_id side dnum snum hloc t v hne hv,
      getSeries_applyAppends_mem _ _ _ _ _ _ _ ?_ ?_ hget⟩
    · rw [List.map_fst_zip _ _ (le_of_eq hv.symm)]
      exact branchLabels_nodup t
    · exact zip_getElem_mem _ _ _ _ hlbl (by rw [hv]; exact hib)
  have hlen_fold : ∀ (q : List (List ℝ)), (∀ v ∈ q, v.length =
      (branchLabels t).length) →
      (q.foldl (fun l v => appendEvict l (v.getD i 0)) xs0).length = 500 := by
    intro q _
    rw [← List.foldl_map (fun v => v.getD i 0) appendEvict q xs0,
      foldl_appendEvict _ _ hlen0, List.length_drop, List.length_append,
      List.length_map, hlen0]
    omega
  obtain ⟨st', hs, hg⟩ :=
    stream_foldlM_inv (fun s v => send_data s sensor_id t v)
      (fun s => getSeries s (dnum - 1) ("snsr_" ++ toString snum) lbl)
      (fun v => v.getD i 0) (fun v => v.length = (branchLabels t).length)
      hstep vs st0 xs0 harity hinit
  have hfold : vs.foldl (fun l v => appendEvict l (v.getD i 0)) xs0 =
      (vs.map (fun v => v.getD i 0)).drop (vs.length - 500) := by
    rw [← List.foldl_map (fun v => v.getD i 0) appendEvict vs xs0,
      foldl_appendEvict _ _ hlen0,
      drop_window_append xs0 _ hlen0 (by rw [List.length_map]; exact hlong),
      List.length_map]
  refine ⟨st', hs, by rw [← hfold]; exact hg, ?_, ?_⟩
  · rw [List.length_drop, List.length_map]
    omega
  · intro p hp
    obtain ⟨stp, hp1, hp2⟩ :=
      stream_foldlM_inv (fun s v => send_data s sensor_id t v)
        (fun s => getSeries s (dnum - 1) ("snsr_" ++ toString snum) lbl)
        (fun v => v.getD i 0) (fun v => v.length = (branchLabels t).length)
        hstep p st0 xs0 (fun w hw => harity w (hp.subset hw)) hinit
    exact ⟨stp, _, hp1, hp2, hlen_fold p (fun w hw => harity w (hp.subset hw))⟩

set_option maxRecDepth 10000 in
theorem getSeries_dancers_acc_y :
    getSeries dancers (2 - 1) ("snsr_" ++ toString 2) "acc_y" =
      some zeros500 := rfl

/-- Witness for claim C2: the `acc` branch (y component) of the sensor
routed to dancer 2, position 2, fed 501 three-component packets into the
initial store. -/
theorem c2_witness :
    ∃ st', sendStream dancers "00B4F116" "acc"
        (List.replicate 501 ([1, 2, 3] : List ℝ)) = some st' ∧
      getSeries st' (2 - 1) ("snsr_" ++ toString 2) "acc_y" =
        some (((List.replicate 501 ([1, 2, 3] : List ℝ)).map
            (fun v => v.getD 1 0)).drop
          ((List.replicate 501 ([1, 2, 3] : List ℝ)).length - 500)) ∧
      (((List.replicate 501 ([1, 2, 3] : List ℝ)).map
          (fun v => v.getD 1 0)).drop
        ((List.replicate 501 ([1, 2, 3] : List ℝ)).length - 500)).length =
        500 ∧
      ∀ p, p <+: List.replicate 501 ([1, 2, 3] : List ℝ) →
        ∃ stp ys, sendStream dancers "00B4F116" "acc" p = some stp ∧
          getSeries stp (2 - 1) ("snsr_" ++ toString 2) "acc_y" =
            some ys ∧ ys.length = 500 :=
  c2_window_holds_last_500 "00B4F116" "right" 2 2 rfl "acc" "acc_y" 1 rfl
    (List.replicate 501 ([1, 2, 3] : List ℝ))
    (by rw [List.length_replicate]; omega)
    (fun v hv => by rw [List.eq_of_mem_replicate hv]; rfl)
    dancers zeros500 getSeries_dancers_acc_y zeros500_length

/-- Claim C4, counterexample.  The claim says a sample with an unknown
sensor id is logged and dropped and the ingestion loop continues with the
next packet.  In the source the unknown id raises an uncaught `KeyError`
(`Sensors.locations[sensor_id]`, src/sensors.py:178, and likewise
src/xda_device.py:329), so a loop fed a bad packet followed by a good one
aborts instead of processing the good packet: the whole run fails. -/
theorem c4_counterexample :
    dispatchLoop dancers
      [("XXXXXXXX", "rot", [1]), ("00B4F11A", "rot", [1])] = none := rfl

/-- Claim C4, amended.  A sample whose sensor id is absent from the location
table makes `send_data` raise (`none`) before any series is touched — the
returned failure carries no mutated store — and the exception propagates:
the ingestion loop aborts at that packet instead of continuing with the
rest. -/
theorem c4_unknown_sensor_aborts (st : Store) (id t : String) (v : List ℝ)
    (ps : List (String × String × List ℝ))
    (h : lookupA locations id = none) :
    send_data st id t v = none ∧
    dispatchLoop st ((id, t, v) :: ps) = none := by
  have h1 : send_data st id t v = none := by
    unfold send_data
    rw [h]
  refine ⟨h1, ?_⟩
  simp only [dispatchLoop, List.foldlM_cons, h1]
  rfl

/-- Witness for the amended claim C4: the unknown id `"XXXXXXXX"` aborts a
loop that still had a valid packet pending. -/
theorem c4_witness :
    send_data dancers "XXXXXXXX" "rot" [1] = none ∧
    dispatchLoop dancers
      [("XXXXXXXX", "rot", [1]), ("00B4F11A", "rot", [1])] = none :=
  c4_unknown_sensor_aborts dancers "XXXXXXXX" "rot" [1]
    [("00B4F11A", "rot", [1])] rfl

/-! ## Pearson correlation: the model of `np.corrcoef(a, b)[1][0]`

Over exact reals the off-diagonal entry of `np.corrcoef` is
`Σ(aᵢ-ā)(bᵢ-b̄) / (√Σ(aᵢ-ā)² · √Σ(bᵢ-b̄)²)` and is NaN exactly when one of
the two variances vanishes (an IEEE `0/0`).  The source checks
`np.isnan(correlation[1][0])` and substitutes `0` (src/sensors.py:347-350);
the model folds the check into the definition. -/

/-- Sample mean of a list. -/
noncomputable def lmean (xs : List ℝ) : ℝ := xs.sum / xs.length

/-- Deviations from the mean. -/
noncomputable def ldev (xs : List ℝ) : List ℝ := xs.map (fun v => v - lmean xs)

/-- Dot product of two lists (excess elements of the longer one ignored). -/
def ldot (xs ys : List ℝ) : ℝ := (List.zipWith (· * ·) xs ys).sum

/-- Unnormalised variance; the `1/(n-1)` factors of `np.corrcoef` cancel in
the correlation ratio. -/
noncomputable def lvar (xs : List ℝ) : ℝ := ldot (ldev xs) (ldev xs)

open Classical in
/-- The `corrVal` of src/sensors.py:345-350: the Pearson coefficient of the
two windows, with `0` substituted when the coefficient is undefined. -/
noncomputable def corrVal (xs ys : List ℝ) : ℝ :=
  if lvar xs = 0 ∨ lvar ys = 0 then 0
  else ldot (ldev xs) (ldev ys) /
    (Real.sqrt (lvar xs) * Real.sqrt (lvar ys))

theorem ldot_eq_sum (xs : List ℝ) : ∀ (ys : List ℝ),
    ldot xs ys = ∑ i in Finset.range (min xs.length ys.length),
      xs.getD i 0 * ys.getD i 0 := by
  induction xs with
  | nil => intro ys; simp [ldot]
  | cons x xs ih =>
    intro ys
    cases ys with
    | nil => simp [ldot]
    | cons y ys =>
      simp only [ldot, List.zipWith_cons_cons, List.sum_cons]
      have hmin : min (x :: xs).length (y :: ys).length =
          min xs.length ys.length + 1 := by
        simp [Nat.succ_min_succ]
      rw [hmin, Finset.sum_range_succ']
      simp only [List.getD_cons_succ, List.getD_cons_zero]
      have := ih ys
      rw [ldot] at this
      rw [← this]
      ring

theorem ldot_self_nonneg (xs : List ℝ) : 0 ≤ ldot xs xs := by
  rw [ldot_eq_sum]
  exact Finset.sum_nonneg (fun i _ => mul_self_nonneg _)

theorem ldot_sq_le (xs ys : List ℝ) :
    (ldot xs ys) ^ 2 ≤ ldot xs xs * ldot ys ys := by
  rw [ldot_eq_sum xs ys, ldot_eq_sum xs xs, ldot_eq_sum ys ys, min_self,
    min_self]
  have hxy := Finset.sum_mul_sq_le_sq_mul_sq
    (Finset.range (min xs.length ys.length)) (fun i => xs.getD i 0)
    (fun i => ys.getD i 0)
  refine le_trans hxy ?_
  have h1 : ∑ i in Finset.range (min xs.length ys.length), (xs.getD i 0) ^ 2 ≤
      ∑ i in Finset.range xs.length, (xs.getD i 0) ^ 2 :=
    Finset.sum_le_sum_of_subset_of_nonneg
      (Finset.range_subset.mpr (Nat.min_le_left _ _)) (fun i _ _ => sq_nonneg _)
  have h2 : ∑ i in Finset.range (min xs.length ys.length), (ys.getD i 0) ^ 2 ≤
      ∑ i in Finset.range ys.length, (ys.getD i 0) ^ 2 :=
    Finset.sum_le_sum_of_subset_of_nonneg
      (Finset.range_subset.mpr (Nat.min_le_right _ _)) (fun i _ _ => sq_nonneg _)
  have h3 : (0 : ℝ) ≤ ∑ i in Finset.range (min xs.length ys.length),
      (ys.getD i 0) ^ 2 := Finset.sum_nonneg (fun i _ => sq_nonneg _)
  have h4 : (0 : ℝ) ≤ ∑ i in Finset.range xs.length, (xs.getD i 0) ^ 2 :=
    Finset.sum_nonneg (fun i _ => sq_nonneg _)
  calc (∑ i in Finset.range (min xs.length ys.length), (xs.getD i 0) ^ 2) *
        ∑ i in Finset.range (min xs.length ys.length), (ys.getD i 0) ^ 2
      ≤ (∑ i in Finset.range xs.length, (xs.getD i 0) ^ 2) *
        ∑ i in Finset.range (min xs.length ys.length), (ys.getD i 0) ^ 2 :=
        mul_le_mul_of_nonneg_right h1 h3
    _ ≤ (∑ i in Finset.range xs.length, (xs.getD i 0) ^ 2) *
        ∑ i in Finset.range ys.length, (ys.getD i 0) ^ 2 :=
        mul_le_mul_of_nonneg_left h2 h4
    _ = (∑ i in Finset.range xs.length, xs.getD i 0 * xs.getD i 0) *
        ∑ i in Finset.range ys.length, ys.getD i 0 * ys.getD i 0 := by
        simp only [pow_two]

/-- The correlation coefficient the source stores and emits is always in
`[-1, 1]`. -/
theorem corrVal_bounds (xs ys : List ℝ) :
    -1 ≤ corrVal xs ys ∧ corrVal xs ys ≤ 1 := by
  unfold corrVal
  split_ifs with h
  · norm_num
  · push_neg at h
    obtain ⟨ha, hb⟩ := h
    have ha' : 0 < lvar xs := lt_of_le_of_ne (ldot_self_nonneg _) (Ne.symm ha)
    have hb' : 0 < lvar ys := lt_of_le_of_ne (ldot_self_nonneg _) (Ne.symm hb)
    have hd : 0 < Real.sqrt (lvar xs) * Real.sqrt (lvar ys) :=
      mul_pos (Real.sqrt_pos.mpr ha') (Real.sqrt_pos.mpr hb')
    have hcs : (ldot (ldev xs) (ldev ys)) ^ 2 ≤ lvar xs * lvar ys :=
      ldot_sq_le (ldev xs) (ldev ys)
    have habs : |ldot (ldev xs) (ldev ys)| ≤
        Real.sqrt (lvar xs) * Real.sqrt (lvar ys) := by
      rw [← Real.sqrt_sq_eq_abs, ← Real.sqrt_mul (le_of_lt ha')]
      exact Real.sqrt_le_sqrt hcs
    rw [abs_le] at habs
    constructor
    · rw [le_div_iff₀ hd]
      linarith [habs.1]
    · rw [div_le_one hd]
      exact habs.2

/-- When the coefficient is undefined (a zero-variance window) the stored
value is exactly `0`. -/
theorem corrVal_degenerate (xs ys : List ℝ)
    (h : lvar xs = 0 ∨ lvar ys = 0) : corrVal xs ys = 0 := by
  unfold corrVal
  exact if_pos h

/-! ## Spectral extraction: `calculate_fft` and `calculate_mfcc`
(src/sensors.py:257-322) -/

/-- Substring scan: does `needle` occur contiguously in the list. -/
def infixCheck (needle : List Char) : List Char → Bool
  | [] => needle.isEmpty
  | c :: rest => needle.isPrefixOf (c :: rest) || infixCheck needle rest

/-- Python substring test `needle in hay`. -/
def containsSub (hay needle : String) : Bool := infixCheck needle.data hay.data

/-- A channel label is eligible for correlation/spectral processing unless it
is `tot_a`, `b_tot_a`, `rot`, or contains `correlation`
(src/sensors.py:302-307 and the analogous filters). -/
def eligibleLabel (label : String) : Bool :=
  !(label == "tot_a" || label == "b_tot_a" || label == "rot" ||
    containsSub label "correlation")

/-- The trailing 32-sample window `v[lenVec - 32 : lenVec]`. -/
def window32 (v : Series) : Series := v.drop (v.length - 32)

/-- Discontinuity-avoiding transform applied before the spectral transform:
orientation channels map through `cos (2 v)`, magnetometer channels through
`cos (2 π (1 + v))`, all others pass unchanged (src/sensors.py:314-319 and
276-290; the branch tests are substring tests on the label). -/
noncomputable def transformFor (label : String) (w : Series) : Series :=
  if containsSub label "ori" then w.map (fun v => Real.cos (2 * v))
  else if containsSub label "mag" then
    w.map (fun v => Real.cos (2 * Real.pi * (1 + v)))
  else w

/-- Model of `np.fft.rfft` on a real input: one complex bin per frequency
`k = 0 .. n/2`, each the sum `Σₙ x[n]·exp(-2πi·k·n/N)`. -/
noncomputable def rfft (x : List ℝ) : List ℂ :=
  (List.range (x.length / 2 + 1)).map (fun (k : ℕ) =>
    ∑ n in Finset.range x.length, (x.getD n 0 : ℂ) *
      Complex.exp (-2 * Real.pi * Complex.I * (k : ℂ) * (n : ℂ) /
        (x.length : ℂ)))

/-- Magnitudes of the real-input FFT (`np.abs(fft)`). -/
noncomputable def rfftMag (x : List ℝ) : List ℝ := (rfft x).map Complex.abs

/-- One channel of the `calculate_fft` loop body: skip ineligible labels and
windows shorter than 32 samples, otherwise emit the FFT magnitude of the
(possibly cosine-transformed) trailing 32 samples.  A `correlation_` entry
passing the label filter cannot occur (the filter skips every label
containing `correlation`); the source would raise there. -/
noncomputable def fftChannel (sd : SensorData) (label : String) :
    Option (List ℝ) :=
  if eligibleLabel label = true then
    match lookupA sd label with
    | some (Entry.ser v) =>
      if v.length < 32 then none
      else some (rfftMag (transformFor label (window32 v)))
    | _ => none
  else none

/-- Model of `Sensors.calculate_fft` (src/sensors.py:295-322): the ordered
feature list over dancers, sensors and labels.  The method reads the store
and writes nothing, so the returned state is the input state. -/
noncomputable def calculate_fft (st : Store) : (List (List ℝ)) × Store :=
  (st.flatMap (fun dancer =>
    (List.range' 1 numberOfSensors).flatMap (fun i =>
      match lookupA dancer ("snsr_" ++ toString i) with
      | some sd => (keysA sd).filterMap (fftChannel sd)
      | none => [])), st)

/-- One channel of the `calculate_mfcc` loop body.  The librosa call
`mfcc(y, sr, n_fft=32, n_mfcc=13)` is external library code; it enters the
model as the parameter `kernel` (its documented contract — 13 cepstral
coefficient rows — is a hypothesis of the theorems that need it).  The
source appends `np.abs(cc)`, the elementwise absolute value. -/
noncomputable def mfccChannel (kernel : ℝ → List ℝ → List ℝ) (fs : ℝ)
    (sd : SensorData) (label : String) : Option (List ℝ) :=
  if eligibleLabel label = true then
    match lookupA sd label with
    | some (Entry.ser v) =>
      if v.length < 32 then none
      else some ((kernel fs (transformFor label (window32 v))).map
        (fun c => |c|))
    | _ => none
  else none

/-- Model of `Sensors.calculate_mfcc` (src/sensors.py:257-293). -/
noncomputable def calculate_mfcc (kernel : ℝ → List ℝ → List ℝ) (fs : ℝ)
    (st : Store) : (List (List ℝ)) × Store :=
  (st.flatMap (fun dancer =>
    (List.range' 1 numberOfSensors).flatMap (fun i =>
      match lookupA dancer ("snsr_" ++ toString i) with
      | some sd => (keysA sd).filterMap (mfccChannel kernel fs sd)
      | none => [])), st)

/-- Specification-side description of the channels the spectral extractor
processes: for every dancer, sensor and label in order, the eligible labels
whose stored series holds at least 32 samples, paired with the trailing
32-sample window. -/
def eligibleWindows (st : Store) : List (String × Series) :=
  st.flatMap (fun dancer =>
    (List.range' 1 numberOfSensors).flatMap (fun i =>
      match lookupA dancer ("snsr_" ++ toString i) with
      | some sd => (keysA sd).filterMap (fun label =>
          if eligibleLabel label = true then
            match lookupA sd label with
            | some (Entry.ser v) =>
              if v.length < 32 then none else some (label, window32 v)
            | _ => none
          else none)
      | none => []))

theorem fftChannel_eq (sd : SensorData) (label : String) :
    fftChannel sd label = (if eligibleLabel label = true then
      match lookupA sd label with
      | some (Entry.ser v) =>
        if v.length < 32 then none else some (label, window32 v)
      | _ => none
    else none).map (fun p => rfftMag (transformFor p.1 p.2)) := by
  unfold fftChannel
  split_ifs with h
  · cases hl : lookupA sd label with
    | none => rfl
    | some e =>
      cases e with
      | ser v =>
        by_cases hv : v.length < 32 <;> simp [hv]
      | corr m => rfl
  · rfl

theorem mfccChannel_eq (kernel : ℝ → List ℝ → List ℝ) (fs : ℝ)
    (sd : SensorData) (label : String) :
    mfccChannel kernel fs sd label = (if eligibleLabel label = true then
      match lookupA sd label with
      | some (Entry.ser v) =>
        if v.length < 32 then none else some (label, window32 v)
      | _ => none
    else none).map (fun p =>
      (kernel fs (transformFor p.1 p.2)).map (fun c => |c|)) := by
  unfold mfccChannel
  split_ifs with h
  · cases hl : lookupA sd label with
    | none => rfl
    | some e =>
      cases e with
      | ser v =>
        by_cases hv : v.length < 32 <;> simp [hv]
      | corr m => rfl
  · rfl

theorem calculate_fft_eq_map (st : Store) :
    (calculate_fft st).1 =
      (eligibleWindows st).map (fun p => rfftMag (transformFor p.1 p.2)) := by
  simp only [calculate_fft, eligibleWindows, List.map_flatMap]
  congr 1
  funext dancer
  congr 1
  funext i
  cases hl : lookupA dancer ("snsr_" ++ toString i) with
  | none => rfl
  | some sd =>
    simp only [List.map_filterMap]
    congr 1
    funext label
    exact fftChannel_eq sd label

theorem calculate_mfcc_eq_map (kernel : ℝ → List ℝ → List ℝ) (fs : ℝ)
    (st : Store) :
    (calculate_mfcc kernel fs st).1 = (eligibleWindows st).map
      (fun p => (kernel fs (transformFor p.1 p.2)).map (fun c => |c|)) := by
  simp only [calculate_mfcc, eligibleWindows, List.map_flatMap]
  congr 1
  funext dancer
  congr 1
  funext i
  cases hl : lookupA dancer ("snsr_" ++ toString i) with
  | none => rfl
  | some sd =>
    simp only [List.map_filterMap]
    congr 1
    funext label
    exact mfccChannel_eq kernel fs sd label

theorem eligibleWindows_length_32 (st : Store) :
    ∀ p ∈ eligibleWindows st, p.2.length = 32 := by
  intro p hp
  simp only [eligibleWindows, List.mem_flatMap, List.mem_filterMap] at hp
  obtain ⟨dancer, -, i, -, hp⟩ := hp
  rcases hl : lookupA dancer ("snsr_" ++ toString i) with _ | sd <;>
    rw [hl] at hp
  · simp at hp
  · simp only [List.mem_filterMap] at hp
    obtain ⟨label, -, hlab⟩ := hp
    split_ifs at hlab with he
    rcases hll : lookupA sd label with _ | e <;> rw [hll] at hlab
    · simp at hlab
    · cases e with
      | ser v =>
        simp only at hlab
        split_ifs at hlab with hv
        simp only [Option.some.injEq] at hlab
        rw [← hlab]
        simp only [window32, List.length_drop]
        omega
      | corr m => simp at hlab

theorem rfftMag_length (x : List ℝ) : (rfftMag x).length = x.length / 2 + 1 := by
  simp only [rfftMag, rfft, List.length_map, List.length_range]

theorem transformFor_length (label : String) (w : Series) :
    (transformFor label w).length = w.length := by
  unfold transformFor
  split_ifs <;> simp

/-- Claim C9.  Whenever a channel is eligible (not total-acceleration, its
binary companion, rate-of-turn or a correlation label) and its series holds
at least 32 samples, `calculate_fft` emits exactly one magnitude vector of
length 17 for it and `calculate_mfcc` exactly one vector of 13 coefficients
(given the librosa contract for `n_mfcc = 13`), collected across all
dancers, sensor positions and channels into one ordered sequence — one
output entry per entry of `eligibleWindows`, in order. -/
theorem c9_spectral_shapes (st : Store) (fs : ℝ)
    (kernel : ℝ → List ℝ → List ℝ)
    (hk : ∀ f y, (kernel f y).length = 13) :
    (calculate_fft st).1 =
      (eligibleWindows st).map (fun p => rfftMag (transformFor p.1 p.2)) ∧
    (∀ v ∈ (calculate_fft st).1, v.length = 17) ∧
    (calculate_fft st).1.length = (eligibleWindows st).length ∧
    (calculate_mfcc kernel fs st).1 = (eligibleWindows st).map
      (fun p => (kernel fs (transformFor p.1 p.2)).map (fun c => |c|)) ∧
    (∀ v ∈ (calculate_mfcc kernel fs st).1, v.length = 13) ∧
    (calculate_mfcc kernel fs st).1.length = (eligibleWindows st).length := by
  refine ⟨calculate_fft_eq_map st, ?_, ?_,
    calculate_mfcc_eq_map kernel fs st, ?_, ?_⟩
  · intro v hv
    rw [calculate_fft_eq_map st] at hv
    simp only [List.mem_map] at hv
    obtain ⟨p, hp, rfl⟩ := hv
    rw [rfftMag_length, transformFor_length, eligibleWindows_length_32 st p hp]
  · rw [calculate_fft_eq_map st, List.length_map]
  · intro v hv
    rw [calculate_mfcc_eq_map kernel fs st] at hv
    simp only [List.mem_map] at hv
    obtain ⟨p, hp, rfl⟩ := hv
    rw [List.length_map, hk]
  · rw [calculate_mfcc_eq_map kernel fs st, List.length_map]

/-- Witness for claim C9 at the initial store, with a kernel satisfying the
librosa 13-coefficient contract. -/
theorem c9_witness :
    (calculate_fft dancers).1 = (eligibleWindows dancers).map
      (fun p => rfftMag (transformFor p.1 p.2)) ∧
    (∀ v ∈ (calculate_fft dancers).1, v.length = 17) ∧
    (calculate_fft dancers).1.length = (eligibleWindows dancers).length ∧
    (calculate_mfcc (fun _ _ => List.replicate 13 0) 1 dancers).1 =
      (eligibleWindows dancers).map
        (fun _ => (List.replicate 13 (0 : ℝ)).map (fun c => |c|)) ∧
    (∀ v ∈ (calculate_mfcc (fun _ _ => List.replicate 13 0) 1 dancers).1,
      v.length = 13) ∧
    (calculate_mfcc (fun _ _ => List.replicate 13 0) 1 dancers).1.length =
      (eligibleWindows dancers).length :=
  c9_spectral_shapes dancers 1 (fun _ _ => List.replicate 13 0)
    (fun _ _ => List.length_replicate 13 0)

/-! ## Correlation engine: `calculate_correlation_self` and
`calculate_correlation_others` (src/sensors.py:324-401)

Both iterate channels of a source sensor dict, skip ineligible labels and
windows shorter than 32 samples, compute the Pearson coefficient of the two
trailing 32-sample windows with `0` substituted for NaN, append
`[label, corrVal]` to the returned list and push the coefficient into the
`correlation_<label>` series under the write key, evicting past 500. -/

/-- One iteration of the label loop shared by both correlation methods:
read the two series at `rd1`/`rd2`, and on success append the coefficient to
the output and to `rd1`'s `correlation_<label>` series under `wkey`. -/
noncomputable def corrLabelStep (rd1 rd2 : ℕ × String) (wkey : String)
    (acc : Store × List (String × ℝ)) (label : String) :
    Store × List (String × ℝ) :=
  if eligibleLabel label = true then
    match getSeries acc.1 rd1.1 rd1.2 label,
        getSeries acc.1 rd2.1 rd2.2 label with
    | some v1, some v2 =>
      if v1.length < 32 ∨ v2.length < 32 then acc
      else
        (updCorrSeries acc.1 rd1.1 rd1.2 ("correlation_" ++ label) wkey
          (fun l => appendEvict l (corrVal (window32 v1) (window32 v2))),
         acc.2 ++ [(label, corrVal (window32 v1) (window32 v2))])
    | _, _ => acc
  else acc

/-- The `(i, j)` sensor-pair body of `calculate_correlation_self`: iterate
the keys of `snsr_i`'s dict in the current store. -/
noncomputable def corrSelfPair (d : ℕ) (acc : Store × List (String × ℝ))
    (p : ℕ × ℕ) : Store × List (String × ℝ) :=
  (keysAt acc.1 d ("snsr_" ++ toString p.1)).foldl
    (corrLabelStep (d, "snsr_" ++ toString p.1) (d, "snsr_" ++ toString p.2)
      ("snsr_" ++ toString p.2)) acc

/-- The per-dancer body of `calculate_correlation_self`. -/
noncomputable def corrSelfDancer (acc : Store × List (String × ℝ)) (d : ℕ) :
    Store × List (String × ℝ) := pairsIJ.foldl (corrSelfPair d) acc

/-- The full run of `calculate_correlation_self`, threading the mutated
store. -/
noncomputable def corrSelfRun (st : Store) : Store × List (String × ℝ) :=
  (List.range st.length).foldl corrSelfDancer (st, [])

/-- Model of `Sensors.calculate_correlation_self` (src/sensors.py:324-358):
the returned `(label, coefficient)` list and the mutated store. -/
noncomputable def calculate_correlation_self (st : Store) :
    (List (String × ℝ)) × Store := ((corrSelfRun st).2, (corrSelfRun st).1)

/-- The static cross-performer pair list
`Sensors.correlation_others_combos` (src/sensors.py:86-88). -/
def correlation_others_combos : List (ℕ × ℕ) := [(12, 22)]

/-- Decode a composite identifier `dancer*10 + sensor`:
`round(c / 10)` and `c % 10` (src/sensors.py:366-374).  Python `round` is
round-half-to-even; no composite used by the source sits on a half, so
Mathlib `round` (half away from zero) agrees on every input that occurs. -/
def comboParse (c : ℕ) : ℕ × ℕ := (Int.toNat (round ((c : ℚ) / 10)), c % 10)

/-- The per-combo body of `calculate_correlation_others`: the second window
is read from the target dancer's slot, and the write key names the target
dancer as `dancer_<idx + 1>` (faithfully reproducing the source's
off-by-one: combo `(12, 22)` writes under `dancer_3` while correlating with
dancer 2). -/
noncomputable def corrOthersCombo (acc : Store × List (String × ℝ))
    (combo : ℕ × ℕ) : Store × List (String × ℝ) :=
  if combo.1 = combo.2 then acc
  else
    (keysAt acc.1 ((comboParse combo.1).1 - 1)
      ("snsr_" ++ toString (comboParse combo.1).2)).foldl
      (corrLabelStep
        ((comboParse combo.1).1 - 1, "snsr_" ++ toString (comboParse combo.1).2)
        ((comboParse combo.2).1 - 1, "snsr_" ++ toString (comboParse combo.2).2)
        ("dancer_" ++ toString ((comboParse combo.2).1 + 1))) acc

/-- The full run of `calculate_correlation_others`. -/
noncomputable def corrOthersRun (st : Store) : Store × List (String × ℝ) :=
  correlation_others_combos.foldl corrOthersCombo (st, [])

/-- Model of `Sensors.calculate_correlation_others`
(src/sensors.py:360-401). -/
noncomputable def calculate_correlation_others (st : Store) :
    (List (String × ℝ)) × Store := ((corrOthersRun st).2, (corrOthersRun st).1)

/-- The write a single label iteration performs, judged against the frozen
pre-call store `st0`: `some (dancer, sensor, correlation label, write key)`
exactly when the guards pass. -/
def labelWrite (st0 : Store) (rd1 rd2 : ℕ × String) (wkey label : String) :
    Option (ℕ × String × String × String) :=
  if eligibleLabel label = true then
    match getSeries st0 rd1.1 rd1.2 label, getSeries st0 rd2.1 rd2.2 label with
    | some v1, some v2 =>
      if v1.length < 32 ∨ v2.length < 32 then none
      else some (rd1.1, rd1.2, "correlation_" ++ label, wkey)
    | _, _ => none
  else none

/-- All (dancer, sensor, correlation label, write key) tuples
`calculate_correlation_self` writes, computed from the pre-call store. -/
def selfWrites (st0 : Store) : List (ℕ × String × String × String) :=
  (List.range st0.length).flatMap (fun d =>
    pairsIJ.flatMap (fun p =>
      (keysAt st0 d ("snsr_" ++ toString p.1)).filterMap
        (labelWrite st0 (d, "snsr_" ++ toString p.1)
          (d, "snsr_" ++ toString p.2) ("snsr_" ++ toString p.2))))

/-- All tuples `calculate_correlation_others` writes. -/
def othersWrites (st0 : Store) : List (ℕ × String × String × String) :=
  correlation_others_combos.flatMap (fun combo =>
    if combo.1 = combo.2 then []
    else
      (keysAt st0 ((comboParse combo.1).1 - 1)
        ("snsr_" ++ toString (comboParse combo.1).2)).filterMap
        (labelWrite st0
          ((comboParse combo.1).1 - 1,
            "snsr_" ++ toString (comboParse combo.1).2)
          ((comboParse combo.2).1 - 1,
            "snsr_" ++ toString (comboParse combo.2).2)
          ("dancer_" ++ toString ((comboParse combo.2).1 + 1))))

/-- The map-form of the self update: also covers an absent series (the
update is then a no-op). -/
theorem getCorrSeries_updCorrSeries_same (st : Store) (d : ℕ)
    (s cl k : String) (f : Series → Series) :
    getCorrSeries (updCorrSeries st d s cl k f) d s cl k =
      (getCorrSeries st d s cl k).map f := by
  simp only [getCorrSeries, getSensor, updCorrSeries, get?_modIdx_self]
  cases hdl : st[d]? with
  | none => rfl
  | some dancer =>
    simp only [Option.map_some', Option.some_bind, lookupA_updateA_self]
    cases hsl : lookupA dancer s with
    | none => rfl
    | some sd =>
      simp only [Option.map_some', Option.some_bind, lookupA_updateA_self]
      cases hll : lookupA sd cl with
      | none => rfl
      | some e =>
        cases e with
        | ser v => rfl
        | corr m =>
          simp only [Option.map_some', Option.some_bind]
          exact lookupA_updateA_self m k f

/-- Membership in an append-evict step: every element was already there or
is the appended value. -/
theorem mem_appendEvict {v : ℝ} {xs : Series} {c : ℝ}
    (h : v ∈ appendEvict xs c) : v ∈ xs ∨ v = c := by
  rw [show appendEvict xs c = if 0 < (xs ++ [c]).length - 500 then
    (xs ++ [c]).tail else (xs ++ [c]) from rfl] at h
  split_ifs at h
  · have h2 := List.mem_of_mem_tail h
    rcases List.mem_append.mp h2 with h3 | h3
    · exact Or.inl h3
    · simp at h3
      exact Or.inr h3
  · rcases List.mem_append.mp h with h3 | h3
    · exact Or.inl h3
    · simp at h3
      exact Or.inr h3

/-- Invariant carried through a correlation run started at `st0`: every
emitted coefficient is in `[-1, 1]`; every base-channel series and every
sensor dict's key list is untouched; every correlation series that differs
from its pre-call value is one of the tuples in `W`; and every element of
every correlation series was there before the call or is a bounded
coefficient. -/
def CorrInv (st0 : Store) (W : List (ℕ × String × String × String))
    (acc : Store × List (String × ℝ)) : Prop :=
  (∀ x ∈ acc.2, -1 ≤ x.2 ∧ x.2 ≤ 1) ∧
  (∀ d s lbl, getSeries acc.1 d s lbl = getSeries st0 d s lbl) ∧
  (∀ d s, keysAt acc.1 d s = keysAt st0 d s) ∧
  (∀ d s cl k, getCorrSeries acc.1 d s cl k ≠ getCorrSeries st0 d s cl k →
    (d, s, cl, k) ∈ W) ∧
  (∀ d s cl k xs, getCorrSeries acc.1 d s cl k = some xs → ∀ v ∈ xs,
    (∃ xs0, getCorrSeries st0 d s cl k = some xs0 ∧ v ∈ xs0) ∨
    (-1 ≤ v ∧ v ≤ 1))

theorem corrInv_init (st0 : Store)
    (W : List (ℕ × String × String × String)) : CorrInv st0 W (st0, []) :=
  ⟨by simp, fun _ _ _ => rfl, fun _ _ => rfl,
   fun _ _ _ _ h => absurd rfl h,
   fun _ _ _ _ xs h v hv => Or.inl ⟨xs, h, hv⟩⟩

theorem corrLabelStep_inv (st0 : Store)
    (W : List (ℕ × String × String × String)) (rd1 rd2 : ℕ × String)
    (wkey label : String) (acc : Store × List (String × ℝ))
    (hW : ∀ q, labelWrite st0 rd1 rd2 wkey label = some q → q ∈ W)
    (hI : CorrInv st0 W acc) :
    CorrInv st0 W (corrLabelStep rd1 rd2 wkey acc label) := by
  obtain ⟨hout, hser, hkeys, hframe, helem⟩ := hI
  unfold corrLabelStep
  by_cases he : eligibleLabel label = true
  swap
  · rw [if_neg he]
    exact ⟨hout, hser, hkeys, hframe, helem⟩
  rw [if_pos he]
  cases h1 : getSeries acc.1 rd1.1 rd1.2 label with
  | none =>
    cases h2 : getSeries acc.1 rd2.1 rd2.2 label <;>
      exact ⟨hout, hser, hkeys, hframe, helem⟩
  | some v1 =>
    cases h2 : getSeries acc.1 rd2.1 rd2.2 label with
    | none => exact ⟨hout, hser, hkeys, hframe, helem⟩
    | some v2 =>
      show CorrInv st0 W (if v1.length < 32 ∨ v2.length < 32 then acc else
        (updCorrSeries acc.1 rd1.1 rd1.2 ("correlation_" ++ label) wkey
          (fun l => appendEvict l (corrVal (window32 v1) (window32 v2))),
         acc.2 ++ [(label, corrVal (window32 v1) (window32 v2))]))
      by_cases hlen : v1.length < 32 ∨ v2.length < 32
      · rw [if_pos hlen]
        exact ⟨hout, hser, hkeys, hframe, helem⟩
      · rw [if_neg hlen]
        have hcb := corrVal_bounds (window32 v1) (window32 v2)
        have h1' : getSeries st0 rd1.1 rd1.2 label = some v1 :=
          (hser rd1.1 rd1.2 label).symm.trans h1
        have h2' : getSeries st0 rd2.1 rd2.2 label = some v2 :=
          (hser rd2.1 rd2.2 label).symm.trans h2
        have hq : labelWrite st0 rd1 rd2 wkey label =
            some (rd1.1, rd1.2, "correlation_" ++ label, wkey) := by
          unfold labelWrite
          rw [if_pos he, h1', h2']
          show (if v1.length < 32 ∨ v2.length < 32 then none
            else some (rd1.1, rd1.2, "correlation_" ++ label, wkey)) =
            some (rd1.1, rd1.2, "correlation_" ++ label, wkey)
          rw [if_neg hlen]
        have hqW := hW _ hq
        refine ⟨?_, ?_, ?_, ?_, ?_⟩
        · intro x hx
          rcases List.mem_append.mp hx with hx | hx
          · exact hout x hx
          · simp only [List.mem_singleton] at hx
            rw [hx]
            exact hcb
        · intro d s lbl
          rw [getSeries_updCorrSeries]
          exact hser d s lbl
        · intro d s
          rw [keysAt_updCorrSeries]
          exact hkeys d s
        · intro d s cl k hne
          by_cases hsame : d = rd1.1 ∧ s = rd1.2 ∧
              cl = "correlation_" ++ label ∧ k = wkey
          · obtain ⟨hd1, hs1, hc1, hk1⟩ := hsame
            rw [hd1, hs1, hc1, hk1]
            exact hqW
          · rw [getCorrSeries_updCorrSeries_frame _ hsame] at hne
            exact hframe d s cl k hne
        · intro d s cl k xs hxs v hv
          by_cases hsame : d = rd1.1 ∧ s = rd1.2 ∧
              cl = "correlation_" ++ label ∧ k = wkey
          · obtain ⟨hd1, hs1, hc1, hk1⟩ := hsame
            rw [hd1, hs1, hc1, hk1] at hxs ⊢
            rw [getCorrSeries_updCorrSeries_same] at hxs
            cases hbase : getCorrSeries acc.1 rd1.1 rd1.2
                ("correlation_" ++ label) wkey with
            | none => rw [hbase] at hxs; simp at hxs
            | some xs0 =>
              rw [hbase] at hxs
              simp only [Option.map_some', Option.some.injEq] at hxs
              rw [← hxs] at hv
              rcases mem_appendEvict hv with hv0 | hvc
              · exact helem _ _ _ _ _ hbase v hv0
              · rw [hvc]
                exact Or.inr hcb
          · rw [getCorrSeries_updCorrSeries_frame _ hsame] at hxs
            exact helem _ _ _ _ _ hxs v hv

/-- Generic fold preservation with membership of the iterated list. -/
theorem foldl_inv_mem {α : Type _} (P : Store × List (String × ℝ) → Prop)
    (f : Store × List (String × ℝ) → α → Store × List (String × ℝ)) :
    ∀ (l : List α), (∀ acc a, a ∈ l → P acc → P (f acc a)) →
    ∀ acc, P acc → P (l.foldl f acc) := by
  intro l
  induction l with
  | nil => intro _ acc h; exact h
  | cons a rest ih =>
    intro hstep acc h
    rw [List.foldl_cons]
    exact ih (fun acc2 b hb h2 => hstep acc2 b (List.mem_cons_of_mem _ hb) h2)
      _ (hstep acc a (List.mem_cons_self _ _) h)

theorem corrSelfRun_inv (st : Store) :
    CorrInv st (selfWrites st) (corrSelfRun st) := by
  unfold corrSelfRun
  refine foldl_inv_mem _ corrSelfDancer (List.range st.length) ?_ _
    (corrInv_init st (selfWrites st))
  intro acc d hd hI
  unfold corrSelfDancer
  refine foldl_inv_mem _ (corrSelfPair d) pairsIJ ?_ acc hI
  intro acc2 p hp hI2
  unfold corrSelfPair
  rw [hI2.2.2.1 d ("snsr_" ++ toString p.1)]
  refine foldl_inv_mem _ _ (keysAt st d ("snsr_" ++ toString p.1)) ?_ acc2 hI2
  intro acc3 label hlab hI3
  refine corrLabelStep_inv st (selfWrites st) _ _ _ label acc3 ?_ hI3
  intro q hq
  unfold selfWrites
  simp only [List.mem_flatMap, List.mem_filterMap]
  exact ⟨d, hd, p, hp, label, hlab, hq⟩

theorem corrOthersRun_inv (st : Store) :
    CorrInv st (othersWrites st) (corrOthersRun st) := by
  unfold corrOthersRun
  refine foldl_inv_mem _ corrOthersCombo correlation_others_combos ?_ _
    (corrInv_init st (othersWrites st))
  intro acc combo hc hI
  unfold corrOthersCombo
  by_cases hEq : combo.1 = combo.2
  · rw [if_pos hEq]
    exact hI
  · rw [if_neg hEq]
    rw [hI.2.2.1 ((comboParse combo.1).1 - 1)
      ("snsr_" ++ toString (comboParse combo.1).2)]
    refine foldl_inv_mem _ _ _ ?_ acc hI
    intro acc2 label hlab hI2
    refine corrLabelStep_inv st (othersWrites st) _ _ _ label acc2 ?_ hI2
    intro q hq
    unfold othersWrites
    simp only [List.mem_flatMap]
    refine ⟨combo, hc, ?_⟩
    rw [if_neg hEq]
    simp only [List.mem_filterMap]
    exact ⟨label, hlab, hq⟩

/-- Claim C5.  Every coefficient returned by `calculate_correlation_self` or
`calculate_correlation_others` lies in `[-1, 1]`; the Pearson value the code
computes is always in `[-1, 1]` and is exactly `0` when undefined
(zero-variance window), never NaN or infinite (the model is exact real
arithmetic, where the IEEE NaN of `np.corrcoef` appears precisely as the
zero-variance case the source's `isnan` check replaces by `0`); and every
value sitting in a stored correlation series after either call was either
there before the call or is a coefficient in `[-1, 1]`. -/
theorem c5_coefficients_in_unit_interval : ∀ st : Store,
    (∀ x ∈ (calculate_correlation_self st).1, -1 ≤ x.2 ∧ x.2 ≤ 1) ∧
    (∀ x ∈ (calculate_correlation_others st).1, -1 ≤ x.2 ∧ x.2 ≤ 1) ∧
    (∀ xs ys, -1 ≤ corrVal xs ys ∧ corrVal xs ys ≤ 1) ∧
    (∀ xs ys, lvar xs = 0 ∨ lvar ys = 0 → corrVal xs ys = 0) ∧
    (∀ d s cl k xs,
      getCorrSeries (calculate_correlation_self st).2 d s cl k = some xs →
      ∀ v ∈ xs, (∃ xs0, getCorrSeries st d s cl k = some xs0 ∧ v ∈ xs0) ∨
        (-1 ≤ v ∧ v ≤ 1)) ∧
    (∀ d s cl k xs,
      getCorrSeries (calculate_correlation_others st).2 d s cl k = some xs →
      ∀ v ∈ xs, (∃ xs0, getCorrSeries st d s cl k = some xs0 ∧ v ∈ xs0) ∨
        (-1 ≤ v ∧ v ≤ 1)) := by
  intro st
  obtain ⟨hso, -, -, -, hsel⟩ := corrSelfRun_inv st
  obtain ⟨hoo, -, -, -, hoel⟩ := corrOthersRun_inv st
  exact ⟨hso, hoo, corrVal_bounds, corrVal_degenerate, hsel, hoel⟩

/-- Claim C10.  `calculate_fft` and `calculate_mfcc` return the store
unchanged; `calculate_correlation_self` and `calculate_correlation_others`
leave every base channel series unchanged and change no correlation series
other than the `(channel, key)` tuples they compute (`selfWrites` /
`othersWrites`, judged against the pre-call store). -/
theorem c10_only_correlation_series_change : ∀ (st : Store) (fs : ℝ)
    (kernel : ℝ → List ℝ → List ℝ),
    (calculate_fft st).2 = st ∧
    (calculate_mfcc kernel fs st).2 = st ∧
    (∀ d s lbl, getSeries (calculate_correlation_self st).2 d s lbl =
      getSeries st d s lbl) ∧
    (∀ d s lbl, getSeries (calculate_correlation_others st).2 d s lbl =
      getSeries st d s lbl) ∧
    (∀ d s cl k, (d, s, cl, k) ∉ selfWrites st →
      getCorrSeries (calculate_correlation_self st).2 d s cl k =
        getCorrSeries st d s cl k) ∧
    (∀ d s cl k, (d, s, cl, k) ∉ othersWrites st →
      getCorrSeries (calculate_correlation_others st).2 d s cl k =
        getCorrSeries st d s cl k) := by
  intro st fs kernel
  obtain ⟨-, hser, -, hframe, -⟩ := corrSelfRun_inv st
  obtain ⟨-, hser2, -, hframe2, -⟩ := corrOthersRun_inv st
  refine ⟨rfl, rfl, hser, hser2, ?_, ?_⟩
  · intro d s cl k hnot
    by_contra hne
    exact hnot (hframe d s cl k hne)
  · intro d s cl k hnot
    by_contra hne
    exact hnot (hframe2 d s cl k hne)

/-- Claim C3, evaluated at the failing input: the freshly built store has
seen zero real (ingested) samples on every channel, yet because every
series is pre-filled with 500 synthetic zeros the `len < 32` guards never
fire: `calculate_fft` emits a feature for all 108 eligible channels (3
dancers x 3 sensors x 12 labels) and `calculate_correlation_self` computes
and appends a coefficient for all 108 eligible (dancer, pair, label)
combinations, instead of skipping them as the claim requires. -/
theorem c3_zero_prefill_not_skipped :
    (eligibleWindows dancers).length = 108 ∧
    (calculate_fft dancers).1.length = 108 ∧
    (calculate_correlation_self dancers).1.length = 108 := by
  refine ⟨?_, ?_, ?_⟩
  · set_option maxRecDepth 100000 in exact rfl
  · rw [calculate_fft_eq_map dancers, List.length_map]
    set_option maxRecDepth 100000 in exact rfl
  · set_option maxRecDepth 200000 in exact rfl
